import Mathlib

/-!
# BINGO: the draw / reveal sequencing engine of `script.js`

A shallow embedding of `class BingoGame` (script.js, lines 106-279).

Modelling conventions
* JavaScript numbers are IEEE 754 doubles. A double is the rational it stands
  for, and every operation of the code whose exact result need not be a double
  (`*`, `/`, `+`, `-` on non-integers, the literals `0.7` and `0.9`) is followed by
  `roundDouble`, rounding to nearest with ties to even on a 53-bit significand.
  The exponent range is taken unbounded, which agrees with binary64 for every
  magnitude in `[2^-1022, 2^1024)` and for every product of a double and an
  integer below that. Values of `Math.random()` are doubles in `[0, 1)`; clock
  readings of `Date.now()`, their differences and `maxNumber` are integers
  below `2^53` in magnitude, which doubles hold exactly.
* `this.drawnNumbers` (a JS `Set`) is a `Finset ℤ`.
* `setTimeout` closures are defunctionalised (`Timer`, `Callback`); the pending
  ones are kept in the state and run by the environment, one per event.
* Everything the page does that is observable is appended to `log`.
* A call that reads `Math.random()` gets the values it reads as a list; a
  resampling loop that uses the list up without leaving returns `none`.
* DOM-only decoration (`createBoard`, the body of `celebrateNumber` and
  `createConfetti`, `updateDisplay`) is recorded as one log entry or left out.
-/

namespace Bingo

/-- The nearest integer, the even one of two that are equally near. -/
def roundHalfEven (q : ℚ) : ℤ :=
  if q - (⌊q⌋ : ℚ) < 1 / 2 then ⌊q⌋
  else if 1 / 2 < q - (⌊q⌋ : ℚ) then ⌊q⌋ + 1
  else if ⌊q⌋ % 2 = 0 then ⌊q⌋ else ⌊q⌋ + 1

/-- The double nearest to `x`, ties to even: with `2^e ≤ |x| < 2^(e+1)` the doubles
around `x` are the multiples of `2^(e-52)`. -/
def roundDouble (x : ℚ) : ℚ :=
  if x = 0 then 0
  else (roundHalfEven (x / (2 : ℚ) ^ (Int.log 2 |x| - 52)) : ℚ) * (2 : ℚ) ^ (Int.log 2 |x| - 52)

/-- A value of `Math.random()`: a double in `[0, 1)`. -/
abbrev Random : Type := {r : ℚ // 0 ≤ r ∧ r < 1 ∧ roundDouble r = r}

/-- The sound cues of `SoundManager`. -/
inductive Cue where
  | buttonClick
  | drumRoll
  | fanfare
  | tick (frequency : ℚ)
  deriving DecidableEq

/-- The two `alert` messages of `drawNumber`. -/
inductive Notice where
  | exhausted
  | gameOver
  deriving DecidableEq

/-- Values written to `display.style.color`. -/
inductive Color where
  | hsl (hue : ℚ)
  | green
  deriving DecidableEq

/-- CSS classes toggled on the `currentNumber` display. -/
inductive DisplayClass where
  | spinning
  | finalNumber
  deriving DecidableEq

/-- The closure `drawNumber` passes to `startRouletteAnimation` (lines 158-175);
it captures `finalNumber`. -/
inductive Callback where
  | commit (finalNumber : ℤ)
  deriving DecidableEq

/-- The closures handed to `setTimeout`. -/
inductive Timer where
  | animate (startTime : ℤ) (targetNumber : ℤ) (callback : Option Callback)
  | settle (callback : Option Callback)
  | gameOver
  deriving DecidableEq

/-- Observable actions, in the order they happen. -/
inductive Effect where
  | cue (c : Cue)
  | alert (n : Notice)
  | addClass (c : DisplayClass)
  | removeClass (c : DisplayClass)
  | display (n : ℤ) (color : Color)
  | setTimeout (t : Timer) (delay : ℚ)
  | invoke (cb : Callback)
  | markNumber (n : ℤ)
  | celebrateNumber (n : ℤ)
  deriving DecidableEq

/-- The fields of `BingoGame`, the draw button, the pending timers and the log. -/
structure BingoGame where
  maxNumber : ℤ
  drawnNumbers : Finset ℤ
  currentNumber : Option ℤ
  isDrawing : Bool
  drawButtonDisabled : Bool
  timers : List Timer
  log : List Effect
  deriving DecidableEq

/-- The state after `new BingoGame()` (lines 107-114). -/
def BingoGame.new : BingoGame :=
  { maxNumber := 75
    drawnNumbers := ∅
    currentNumber := none
    isDrawing := false
    drawButtonDisabled := false
    timers := []
    log := [] }

/-- Append to the log. -/
def BingoGame.emit (g : BingoGame) (es : List Effect) : BingoGame :=
  { g with log := g.log ++ es }

/-- The call `setTimeout(t, delay)`. -/
def BingoGame.schedule (g : BingoGame) (t : Timer) (delay : ℚ) : BingoGame :=
  { g with timers := g.timers ++ [t], log := g.log ++ [Effect.setTimeout t delay] }

/-- The expression `Math.floor(Math.random() * this.maxNumber) + 1`; the product is
a double. -/
def pick (maxNumber : ℤ) (r : Random) : ℤ :=
  ⌊roundDouble (r.val * (maxNumber : ℚ))⌋ + 1

/-- The loop `do { x = pick } while (this.drawnNumbers.has(x))` (lines 152-154 and
200-202): the number it leaves with and the random values not yet read. -/
def resample (maxNumber : ℤ) (drawn : Finset ℤ) : List Random → Option (ℤ × List Random)
  | [] => none
  | r :: rs =>
    if pick maxNumber r ∈ drawn then resample maxNumber drawn rs
    else some (pick maxNumber r, rs)

/-- The constant `duration` of `startRouletteAnimation`. -/
def duration : ℤ := 3000

/-- The value `animate` gives to `speed` (lines 188-196), every step in double
arithmetic: `progress` is the rounded quotient, `0.7` and `0.9` are the doubles
nearest to 7/10 and 9/10, and the difference, the product and the sum are each
rounded. -/
def tickInterval (elapsed : ℤ) : ℚ :=
  let progress : ℚ := roundDouble ((elapsed : ℚ) / (duration : ℚ))
  if progress < roundDouble (7 / 10) then 50
  else if progress < roundDouble (9 / 10) then
    roundDouble (100 + roundDouble (roundDouble (progress - roundDouble (7 / 10)) * 500))
  else roundDouble (200 + roundDouble (roundDouble (progress - roundDouble (9 / 10)) * 2000))

/-- The body of the completion closure of `drawNumber` (lines 159-174); the call
of `updateDrawnNumbersList`, whose body is empty, leaves no trace. -/
def onComplete (g : BingoGame) (finalNumber : ℤ) : BingoGame :=
  let g1 : BingoGame :=
    { g with
      currentNumber := some finalNumber
      drawnNumbers := insert finalNumber g.drawnNumbers
      log := g.log ++ [Effect.cue Cue.fanfare, Effect.markNumber finalNumber,
        Effect.celebrateNumber finalNumber]
      isDrawing := false
      drawButtonDisabled := false }
  if (g1.drawnNumbers.card : ℤ) = g1.maxNumber then g1.schedule Timer.gameOver 500 else g1

/-- The call `callback()`. -/
def runCallback (g : BingoGame) : Callback → BingoGame
  | Callback.commit finalNumber => onComplete (g.emit [Effect.invoke (Callback.commit finalNumber)]) finalNumber

/-- The closure of the settle timer (lines 217-220). -/
def settle (g : BingoGame) (callback : Option Callback) : BingoGame :=
  let g1 := g.emit [Effect.removeClass DisplayClass.finalNumber]
  match callback with
  | some cb => runCallback g1 cb
  | none => g1

/-- One run of the closure `animate` (lines 186-222); `now` is what `Date.now()`
returns and `rs` are the values `Math.random()` returns during the run. -/
def animate (g : BingoGame) (startTime targetNumber : ℤ) (callback : Option Callback)
    (now : ℤ) (rs : List Random) : Option BingoGame :=
  let elapsed := now - startTime
  let speed := tickInterval elapsed
  if elapsed < duration then
    match resample g.maxNumber g.drawnNumbers rs with
    | some (randomNumber, hue :: freq :: _) =>
      some ((g.emit [Effect.display randomNumber (Color.hsl (roundDouble (hue.val * 360))),
          Effect.cue (Cue.tick (roundDouble (400 + roundDouble (freq.val * 800))))]).schedule
        (Timer.animate startTime targetNumber callback) speed)
    | _ => none
  else
    some ((g.emit [Effect.removeClass DisplayClass.spinning,
        Effect.display targetNumber Color.green,
        Effect.addClass DisplayClass.finalNumber]).schedule (Timer.settle callback) 500)

/-- The method `startRouletteAnimation` (lines 178-225): `startTime` is the first
reading of `Date.now()`, `now` the one made by the first run of `animate`. -/
def startRouletteAnimation (g : BingoGame) (targetNumber : ℤ) (callback : Option Callback)
    (startTime now : ℤ) (rs : List Random) : Option BingoGame :=
  animate (g.emit [Effect.addClass DisplayClass.spinning]) startTime targetNumber callback now rs

/-- The method `drawNumber` (lines 138-176). -/
def drawNumber (g : BingoGame) (startTime now : ℤ) (rs : List Random) : Option BingoGame :=
  if g.isDrawing then some g
  else if (g.drawnNumbers.card : ℤ) ≥ g.maxNumber then
    some (g.emit [Effect.alert Notice.exhausted])
  else
    let g1 : BingoGame :=
      { g with
        log := g.log ++ [Effect.cue Cue.buttonClick]
        isDrawing := true
        drawButtonDisabled := true }
    match resample g1.maxNumber g1.drawnNumbers rs with
    | none => none
    | some (finalNumber, rest) =>
      startRouletteAnimation (g1.emit [Effect.cue Cue.drumRoll]) finalNumber
        (some (Callback.commit finalNumber)) startTime now rest

/-- What runs when a pending timer fires. -/
def runTimer (g : BingoGame) (t : Timer) (now : ℤ) (rs : List Random) : Option BingoGame :=
  match t with
  | Timer.animate startTime targetNumber callback =>
    animate g startTime targetNumber callback now rs
  | Timer.settle callback => some (settle g callback)
  | Timer.gameOver => some (g.emit [Effect.alert Notice.gameOver])

/-- What the environment can make the page do: a call of `drawNumber`, or a
pending timer firing; each carries the clock readings and random values read. -/
inductive Event where
  | drawNumber (startTime now : ℤ) (rs : List Random)
  | timeout (t : Timer) (now : ℤ) (rs : List Random)

/-- One event. A timer that is not pending cannot fire. -/
def step (g : BingoGame) : Event → Option BingoGame
  | Event.drawNumber startTime now rs => drawNumber g startTime now rs
  | Event.timeout t now rs =>
    if t ∈ g.timers then runTimer { g with timers := g.timers.erase t } t now rs else none

/-- A sequence of events. -/
def run (g : BingoGame) : List Event → Option BingoGame
  | [] => some g
  | e :: es =>
    match step g e with
    | none => none
    | some g1 => run g1 es

/-- The states the page can be in. -/
def Reachable (g : BingoGame) : Prop :=
  ∃ es : List Event, run BingoGame.new es = some g

/-- The chain of `animate` timers: as long as the timer scheduled last is an
`animate` closure it fires next, at the clock reading and with the random values
of the next tick. With no tick left while one is pending there is no result. -/
def runAnimation (g : BingoGame) : List (ℤ × List Random) → Option BingoGame
  | [] =>
    match g.timers.getLast? with
    | some (Timer.animate _ _ _) => none
    | _ => some g
  | tick :: later =>
    match g.timers.getLast? with
    | some (Timer.animate startTime targetNumber callback) =>
      match animate { g with timers := g.timers.dropLast } startTime targetNumber callback
          tick.1 tick.2 with
      | none => none
      | some g1 => runAnimation g1 later
    | _ => some g

/-- The runs of `animate` of one animation, the first on `g` itself and the later
ones from the timers. -/
def animateChain (g : BingoGame) (startTime targetNumber : ℤ) (callback : Option Callback) :
    List (ℤ × List Random) → Option BingoGame
  | [] => none
  | tick :: later =>
    (animate g startTime targetNumber callback tick.1 tick.2).bind
      (fun g1 => runAnimation g1 later)

/-- What a run of `animate` that shows a decoy appends to the log. -/
def decoyEffects (startTime targetNumber : ℤ) (callback : Option Callback) (now n : ℤ)
    (hue freq : Random) : List Effect :=
  [Effect.display n (Color.hsl (roundDouble (hue.val * 360))),
    Effect.cue (Cue.tick (roundDouble (400 + roundDouble (freq.val * 800)))),
    Effect.setTimeout (Timer.animate startTime targetNumber callback)
      (tickInterval (now - startTime))]

/-- The settle timer scheduled last fires. -/
def fireSettle (g : BingoGame) : Option BingoGame :=
  match g.timers.getLast? with
  | some (Timer.settle callback) => some (settle { g with timers := g.timers.dropLast } callback)
  | _ => none

/-- The runs of `animate` made by one call of `startRouletteAnimation`: the first
tick is the direct call, the later ones come from its timers. -/
def spin (g : BingoGame) (targetNumber : ℤ) (callback : Option Callback) (startTime : ℤ) :
    List (ℤ × List Random) → Option BingoGame
  | [] => none
  | tick :: later =>
    (startRouletteAnimation g targetNumber callback startTime tick.1 tick.2).bind
      (fun g1 => runAnimation g1 later)

/-- One animation from the call of `startRouletteAnimation` to the return of the
closure of its settle timer. -/
def roulette (g : BingoGame) (targetNumber : ℤ) (callback : Option Callback) (startTime : ℤ)
    (ticks : List (ℤ × List Random)) : Option BingoGame :=
  (spin g targetNumber callback startTime ticks).bind fireSettle

/-- One draw cycle: `drawNumber`, the ticks of the animation it starts, and the
settle timer with the completion callback. A call of `drawNumber` that starts
no animation gives no cycle. -/
def drawCycle (g : BingoGame) (startTime now : ℤ) (rs : List Random)
    (later : List (ℤ × List Random)) : Option BingoGame :=
  ((drawNumber g startTime now rs).bind (fun g1 => runAnimation g1 later)).bind fireSettle

/-- What the environment supplies to one draw cycle. -/
structure CycleInput where
  startTime : ℤ
  now : ℤ
  rs : List Random
  later : List (ℤ × List Random)

/-- Draw cycles one after the other. -/
def drawCycles (g : BingoGame) : List CycleInput → Option BingoGame
  | [] => some g
  | c :: cs =>
    match drawCycle g c.startTime c.now c.rs c.later with
    | none => none
    | some g1 => drawCycles g1 cs

/-- A log entry that is a call of the completion callback. -/
def Effect.isInvoke : Effect → Bool
  | Effect.invoke _ => true
  | _ => false

/-- A log entry that shows a decoy number. -/
def Effect.isDecoy : Effect → Bool
  | Effect.display _ (Color.hsl _) => true
  | _ => false

/-- How often the completion callback was called. -/
def invocations (log : List Effect) : ℕ := log.countP Effect.isInvoke

/-- How many decoy numbers were shown. -/
def decoysShown (log : List Effect) : ℕ := log.countP Effect.isDecoy

/-- What the last run of `animate` appends to the log. -/
def finale (targetNumber : ℤ) (callback : Option Callback) : List Effect :=
  [Effect.removeClass DisplayClass.spinning, Effect.display targetNumber Color.green,
    Effect.addClass DisplayClass.finalNumber, Effect.setTimeout (Timer.settle callback) 500]

/-- The random values of one tick let the decoy loop leave and are followed by
the two values read for the hue and the tick frequency. -/
def DecoyReady (maxNumber : ℤ) (drawn : Finset ℤ) (rs : List Random) : Prop :=
  ∃ pre r hue freq post, rs = pre ++ r :: hue :: freq :: post ∧
    (∀ x ∈ pre, pick maxNumber x ∈ drawn) ∧ pick maxNumber r ∉ drawn

/-- The double nearest to `(2 i + 1) / 150`, a random value that `pick 75` sends to
`i + 1`. -/
def frac (i : Fin 75) : Random :=
  ⟨roundDouble ((2 * (i.val : ℚ) + 1) / 150), by revert i; decide!⟩

/-- The double written `0.06666666666666667`, just below 1/15. -/
def nearFifteenth : Random :=
  ⟨4803839602528529 / 72057594037927936, by decide!⟩

/-- The double `8046431334235286 / 2^53`, just below 67/75. -/
def nearSixtySeven : Random :=
  ⟨4023215667117643 / 4503599627370496, by decide!⟩

/-- The double nearest to 55/75, just below it. -/
def nearFiftyFive : Random :=
  ⟨6605279453476727 / 9007199254740992, by decide!⟩

/-- Seventy-five draw cycles, the `i`-th drawing `i + 1`; each animation starts
3000 ms late and so shows no decoy. -/
def allCycles : List CycleInput :=
  (List.finRange 75).map (fun i => { startTime := 0, now := 3000, rs := [frac i], later := [] })

/-- Between draw cycles: no draw going on, numbers in range, only game-over
notices pending. -/
def Idle (g : BingoGame) : Prop :=
  g.maxNumber = 75 ∧ g.isDrawing = false ∧ (∀ n ∈ g.drawnNumbers, 1 ≤ n ∧ n ≤ 75) ∧
    ∀ t ∈ g.timers, t = Timer.gameOver

/-- The number a pending timer will commit, if any, is in range. -/
def TimerSafe : Timer → Prop
  | Timer.animate _ _ (some (Callback.commit n)) => 1 ≤ n ∧ n ≤ 75
  | Timer.settle (some (Callback.commit n)) => 1 ≤ n ∧ n ≤ 75
  | _ => True

/-- The invariant of the event semantics behind the range of `drawnNumbers`. -/
def Safe (g : BingoGame) : Prop :=
  g.maxNumber = 75 ∧ (∀ n ∈ g.drawnNumbers, 1 ≤ n ∧ n ≤ 75) ∧ ∀ t ∈ g.timers, TimerSafe t

/-- A call of `drawNumber` with its animation shown for one tick, then the
settle timer, then a second call. -/
def sampleEvents : List Event :=
  [Event.drawNumber 0 0 [frac 2, frac 6, frac 1, frac 1],
    Event.drawNumber 10 10 [frac 9],
    Event.timeout (Timer.animate 0 3 (some (Callback.commit 3))) 3000 [],
    Event.timeout (Timer.settle (some (Callback.commit 3))) 3500 [],
    Event.drawNumber 4000 7000 [frac 2, frac 2, frac 4]]

/-- A tick that shows a decoy is followed by the next one no earlier than the
interval it asked for. -/
def Timely (startTime : ℤ) (a b : ℤ × List Random) : Prop :=
  a.1 - startTime < duration → (a.1 : ℚ) + tickInterval (a.1 - startTime) ≤ (b.1 : ℚ)

instance (startTime : ℤ) : DecidableRel (Timely startTime) :=
  fun a b => inferInstanceAs (Decidable
    (a.1 - startTime < duration → (a.1 : ℚ) + tickInterval (a.1 - startTime) ≤ (b.1 : ℚ)))

/-- Sixty-one ticks 400 ms apart, each with three random values. -/
def slowTicks : List (ℤ × List Random) :=
  (List.range 61).map (fun i => ((i : ℤ) * 400, [frac 0, frac 0, frac 0]))

/-- A state in the middle of a draw: one tick of the animation is pending. -/
def busyGame : BingoGame :=
  { maxNumber := 75
    drawnNumbers := {8}
    currentNumber := some 8
    isDrawing := true
    drawButtonDisabled := true
    timers := [Timer.animate 0 3 (some (Callback.commit 3))]
    log := [] }

/-- The state `busyGame` would be in with no draw going on. -/
def busyGame.idle : BingoGame :=
  { busyGame with isDrawing := false, drawButtonDisabled := false, timers := [] }

/-- A state in which every number is drawn. -/
def fullGame : BingoGame :=
  { maxNumber := 75
    drawnNumbers := Finset.Icc 1 75
    currentNumber := some 7
    isDrawing := false
    drawButtonDisabled := false
    timers := []
    log := [] }

end Bingo

namespace Bingo

/-! ## Rounding to doubles -/

theorem roundHalfEven_near (q : ℚ) : |(roundHalfEven q : ℚ) - q| ≤ 1 / 2 := by
  have h1 : (⌊q⌋ : ℚ) ≤ q := Int.floor_le q
  have h2 : q < (⌊q⌋ : ℚ) + 1 := Int.lt_floor_add_one q
  unfold roundHalfEven
  rw [abs_le]
  split_ifs with ha hb hc
  · constructor <;> linarith
  · push_cast; constructor <;> linarith
  · constructor <;> linarith
  · push_cast; constructor <;> linarith

theorem roundDouble_near (x : ℚ) : |roundDouble x - x| ≤ |x| * (1 / 2 ^ 53) := by
  unfold roundDouble
  split_ifs with h0
  · simp [h0]
  · have hpos : (0 : ℚ) < |x| := abs_pos.mpr h0
    have hu : (0 : ℚ) < (2 : ℚ) ^ (Int.log 2 |x| - 52) := zpow_pos (by norm_num) _
    have hlog : (2 : ℚ) ^ Int.log 2 |x| ≤ |x| := by
      have := Int.zpow_log_le_self (R := ℚ) (b := 2) (by norm_num) hpos
      simpa using this
    have hsplit : (2 : ℚ) ^ (Int.log 2 |x| - 52) = (2 : ℚ) ^ Int.log 2 |x| * (1 / 2 ^ 52) := by
      rw [zpow_sub₀ (by norm_num : (2 : ℚ) ≠ 0)]
      norm_num [div_eq_mul_inv]
    have hnear := roundHalfEven_near (x / (2 : ℚ) ^ (Int.log 2 |x| - 52))
    have hx : x = x / (2 : ℚ) ^ (Int.log 2 |x| - 52) * (2 : ℚ) ^ (Int.log 2 |x| - 52) := by
      field_simp
    have heq : (roundHalfEven (x / (2 : ℚ) ^ (Int.log 2 |x| - 52)) : ℚ) *
        (2 : ℚ) ^ (Int.log 2 |x| - 52) - x =
        ((roundHalfEven (x / (2 : ℚ) ^ (Int.log 2 |x| - 52)) : ℚ) -
          x / (2 : ℚ) ^ (Int.log 2 |x| - 52)) * (2 : ℚ) ^ (Int.log 2 |x| - 52) := by
      rw [sub_mul]
      congr 1
    rw [heq, abs_mul, abs_of_pos hu]
    calc |(roundHalfEven (x / (2 : ℚ) ^ (Int.log 2 |x| - 52)) : ℚ) -
          x / (2 : ℚ) ^ (Int.log 2 |x| - 52)| * (2 : ℚ) ^ (Int.log 2 |x| - 52)
        ≤ 1 / 2 * (2 : ℚ) ^ (Int.log 2 |x| - 52) :=
          mul_le_mul_of_nonneg_right hnear hu.le
      _ = (2 : ℚ) ^ Int.log 2 |x| * (1 / 2 ^ 53) := by rw [hsplit]; ring
      _ ≤ |x| * (1 / 2 ^ 53) := mul_le_mul_of_nonneg_right hlog (by positivity)

theorem roundDouble_bounds (x : ℚ) (hx : 0 ≤ x) :
    x * (1 - 1 / 2 ^ 53) ≤ roundDouble x ∧ roundDouble x ≤ x * (1 + 1 / 2 ^ 53) := by
  have h := roundDouble_near x
  rw [abs_of_nonneg hx, abs_le] at h
  constructor <;> linarith [h.1, h.2]

theorem roundDouble_nonneg (x : ℚ) (hx : 0 ≤ x) : 0 ≤ roundDouble x := by
  have h := (roundDouble_bounds x hx).1
  have : (0 : ℚ) ≤ x * (1 - 1 / 2 ^ 53) := mul_nonneg hx (by norm_num)
  linarith

theorem roundDouble_nonpos (x : ℚ) (hx : x ≤ 0) : roundDouble x ≤ 0 := by
  have h := roundDouble_near x
  rw [abs_of_nonpos hx, abs_le] at h
  have : x * (1 - 1 / 2 ^ 53) ≤ 0 := mul_nonpos_of_nonpos_of_nonneg hx (by norm_num)
  linarith [h.2]

theorem double_lt_one (r : ℚ) (h0 : 0 ≤ r) (h1 : r < 1) (hd : roundDouble r = r) :
    r ≤ 1 - 1 / 2 ^ 53 := by
  rcases eq_or_lt_of_le h0 with h | hpos
  · rw [← h]; norm_num
  · have habs : |r| = r := abs_of_pos hpos
    have hlow : (2 : ℚ) ^ Int.log 2 r ≤ r := by
      have := Int.zpow_log_le_self (R := ℚ) (b := 2) (by norm_num) hpos
      simpa using this
    have hhigh : r < (2 : ℚ) ^ (Int.log 2 r + 1) := by
      have := Int.lt_zpow_succ_log_self (R := ℚ) (b := 2) (by norm_num) r
      simpa using this
    have hneg : Int.log 2 r < 0 := by
      by_contra hcon
      push_neg at hcon
      have : (1 : ℚ) ≤ (2 : ℚ) ^ Int.log 2 r := one_le_zpow₀ (by norm_num) hcon
      linarith
    rcases (show Int.log 2 r ≤ -2 ∨ Int.log 2 r = -1 by omega) with hle | heq
    · have : (2 : ℚ) ^ (Int.log 2 r + 1) ≤ (2 : ℚ) ^ (-1 : ℤ) :=
        zpow_le_zpow_right₀ (by norm_num) (by omega)
      have h2 : (2 : ℚ) ^ (-1 : ℤ) = 1 / 2 := by norm_num
      rw [h2] at this
      have : r < 1 / 2 := lt_of_lt_of_le hhigh this
      have h3 : (1 : ℚ) / 2 ≤ 1 - 1 / 2 ^ 53 := by norm_num
      linarith
    · unfold roundDouble at hd
      rw [if_neg (ne_of_gt hpos), habs, heq] at hd
      have hu : (2 : ℚ) ^ ((-1 : ℤ) - 52) = 1 / 2 ^ 53 := by norm_num [zpow_neg]
      rw [hu] at hd
      have hk : ((roundHalfEven (r / (1 / 2 ^ 53)) : ℤ) : ℚ) < 2 ^ 53 := by
        have : ((roundHalfEven (r / (1 / 2 ^ 53)) : ℤ) : ℚ) * (1 / 2 ^ 53) < 1 := by
          rw [hd]; exact h1
        have hp : (0 : ℚ) < 1 / 2 ^ 53 := by positivity
        have := (lt_div_iff₀ hp).mpr this
        simpa using this
      have hk2 : roundHalfEven (r / (1 / 2 ^ 53)) < 2 ^ 53 := by exact_mod_cast hk
      have hk3 : roundHalfEven (r / (1 / 2 ^ 53)) ≤ 2 ^ 53 - 1 := by omega
      have hk4 : ((roundHalfEven (r / (1 / 2 ^ 53)) : ℤ) : ℚ) ≤ 2 ^ 53 - 1 := by
        exact_mod_cast hk3
      rw [← hd]
      have hp : (0 : ℚ) ≤ 1 / 2 ^ 53 := by positivity
      calc ((roundHalfEven (r / (1 / 2 ^ 53)) : ℤ) : ℚ) * (1 / 2 ^ 53)
          ≤ (2 ^ 53 - 1) * (1 / 2 ^ 53) := mul_le_mul_of_nonneg_right hk4 hp
        _ = 1 - 1 / 2 ^ 53 := by norm_num

theorem roundDouble_within (y B : ℚ) (h1 : y ≤ B) (h2 : -y ≤ B) :
    roundDouble y - y ≤ B * (1 / 2 ^ 53) ∧ y - roundDouble y ≤ B * (1 / 2 ^ 53) := by
  have h := roundDouble_near y
  have habs : |y| ≤ B := abs_le.mpr ⟨by linarith, h1⟩
  have hB : |y| * (1 / 2 ^ 53) ≤ B * (1 / 2 ^ 53) :=
    mul_le_mul_of_nonneg_right habs (by positivity)
  rw [abs_le] at h
  constructor <;> linarith [h.1, h.2]

/-! ## The tick interval -/

theorem seven_tenths : roundDouble (7 / 10) = 3152519739159347 / 4503599627370496 := by decide!
theorem nine_tenths : roundDouble (9 / 10) = 8106479329266893 / 9007199254740992 := by decide!

theorem rampC_close (x : ℚ) (hx : 9 / 10 ≤ x) :
    |roundDouble (200 + roundDouble (roundDouble (roundDouble x - roundDouble (9 / 10)) * 2000)) -
        (200 + (x - 9 / 10) * 2000)| ≤ (200 + (x - 9 / 10) * 2000) / 2 ^ 48 := by
  rw [nine_tenths]
  obtain ⟨hp1, hp2⟩ := roundDouble_within x x (le_refl x) (by linarith)
  obtain ⟨hd1, hd2⟩ := roundDouble_within (roundDouble x - 8106479329266893 / 9007199254740992)
    ((x - 9 / 10) + (x + 9 / 10) * (1 / 2 ^ 53)) (by linarith) (by linarith)
  obtain ⟨hm1, hm2⟩ := roundDouble_within
    (roundDouble (roundDouble x - 8106479329266893 / 9007199254740992) * 2000)
    (2000 * ((x - 9 / 10) + 3 * (x + 9 / 10) * (1 / 2 ^ 53))) (by linarith) (by linarith)
  obtain ⟨hs1, hs2⟩ := roundDouble_within
    (200 + roundDouble (roundDouble (roundDouble x - 8106479329266893 / 9007199254740992) * 2000))
    (200 + 2000 * ((x - 9 / 10) + 7 * (x + 9 / 10) * (1 / 2 ^ 53))) (by linarith) (by linarith)
  rw [abs_le]
  constructor <;> linarith

theorem rampB_close (x : ℚ) (hx : 7 / 10 ≤ x) :
    |roundDouble (100 + roundDouble (roundDouble (roundDouble x - roundDouble (7 / 10)) * 500)) -
        (100 + (x - 7 / 10) * 500)| ≤ (100 + (x - 7 / 10) * 500) / 2 ^ 48 := by
  rw [seven_tenths]
  obtain ⟨hp1, hp2⟩ := roundDouble_within x x (le_refl x) (by linarith)
  obtain ⟨hd1, hd2⟩ := roundDouble_within (roundDouble x - 3152519739159347 / 4503599627370496)
    ((x - 7 / 10) + (x + 7 / 10) * (1 / 2 ^ 53)) (by linarith) (by linarith)
  obtain ⟨hm1, hm2⟩ := roundDouble_within
    (roundDouble (roundDouble x - 3152519739159347 / 4503599627370496) * 500)
    (500 * ((x - 7 / 10) + 3 * (x + 7 / 10) * (1 / 2 ^ 53))) (by linarith) (by linarith)
  obtain ⟨hs1, hs2⟩ := roundDouble_within
    (100 + roundDouble (roundDouble (roundDouble x - 3152519739159347 / 4503599627370496) * 500))
    (100 + 500 * ((x - 7 / 10) + 7 * (x + 7 / 10) * (1 / 2 ^ 53))) (by linarith) (by linarith)
  rw [abs_le]
  constructor <;> linarith


theorem progress_lt_seven (e : ℤ) :
    roundDouble ((e : ℚ) / (duration : ℚ)) < roundDouble (7 / 10) ↔ (e : ℚ) / 3000 < 7 / 10 := by
  have hd : ((duration : ℤ) : ℚ) = 3000 := by norm_num [duration]
  rw [hd, seven_tenths]
  constructor
  · intro h
    by_contra hcon
    push_neg at hcon
    have he : (2100 : ℚ) ≤ (e : ℚ) := by linarith
    have he2 : (2100 : ℤ) ≤ e := by exact_mod_cast he
    rcases eq_or_lt_of_le he2 with heq | hlt
    · rw [← heq] at h
      have : roundDouble (((2100 : ℤ) : ℚ) / 3000) = 3152519739159347 / 4503599627370496 := by
        decide!
      rw [this] at h
      exact lt_irrefl _ h
    · have he3 : (2101 : ℤ) ≤ e := by omega
      have he4 : (2101 : ℚ) ≤ (e : ℚ) := by exact_mod_cast he3
      have hb := (roundDouble_bounds ((e : ℚ) / 3000) (by positivity)).1
      linarith
  · intro h
    have he : (e : ℚ) < 2100 := by linarith
    have he2 : e < 2100 := by exact_mod_cast he
    have he3 : e ≤ 2099 := by omega
    have he4 : (e : ℚ) ≤ 2099 := by exact_mod_cast he3
    rcases le_or_lt 0 ((e : ℚ) / 3000) with hpos | hneg
    · have hb := (roundDouble_bounds ((e : ℚ) / 3000) hpos).2
      linarith
    · have := roundDouble_nonpos ((e : ℚ) / 3000) hneg.le
      linarith

theorem progress_lt_nine (e : ℤ) :
    roundDouble ((e : ℚ) / (duration : ℚ)) < roundDouble (9 / 10) ↔ (e : ℚ) / 3000 < 9 / 10 := by
  have hd : ((duration : ℤ) : ℚ) = 3000 := by norm_num [duration]
  rw [hd, nine_tenths]
  constructor
  · intro h
    by_contra hcon
    push_neg at hcon
    have he : (2700 : ℚ) ≤ (e : ℚ) := by linarith
    have he2 : (2700 : ℤ) ≤ e := by exact_mod_cast he
    rcases eq_or_lt_of_le he2 with heq | hlt
    · rw [← heq] at h
      have : roundDouble (((2700 : ℤ) : ℚ) / 3000) = 8106479329266893 / 9007199254740992 := by
        decide!
      rw [this] at h
      exact lt_irrefl _ h
    · have he3 : (2701 : ℤ) ≤ e := by omega
      have he4 : (2701 : ℚ) ≤ (e : ℚ) := by exact_mod_cast he3
      have hb := (roundDouble_bounds ((e : ℚ) / 3000) (by positivity)).1
      linarith
  · intro h
    have he : (e : ℚ) < 2700 := by linarith
    have he2 : e < 2700 := by exact_mod_cast he
    have he3 : e ≤ 2699 := by omega
    have he4 : (e : ℚ) ≤ 2699 := by exact_mod_cast he3
    rcases le_or_lt 0 ((e : ℚ) / 3000) with hpos | hneg
    · have hb := (roundDouble_bounds ((e : ℚ) / 3000) hpos).2
      linarith
    · have := roundDouble_nonpos ((e : ℚ) / 3000) hneg.le
      linarith

theorem ramp_ge (base slope d : ℚ) (hbase : 100 ≤ base) (hslope : 0 ≤ slope) (hd : 0 ≤ d) :
    50 ≤ roundDouble (base + roundDouble (roundDouble d * slope)) := by
  have h1 := roundDouble_nonneg d hd
  have h2 := roundDouble_nonneg (roundDouble d * slope) (mul_nonneg h1 hslope)
  have h3 := (roundDouble_bounds (base + roundDouble (roundDouble d * slope)) (by linarith)).1
  have h4 : (base + roundDouble (roundDouble d * slope)) * (1 / 2 ^ 53) ≤
      (base + roundDouble (roundDouble d * slope)) * (1 / 2) :=
    mul_le_mul_of_nonneg_left (by norm_num) (by linarith)
  linarith

theorem tickInterval_ge (e : ℤ) : 50 ≤ tickInterval e := by
  unfold tickInterval
  simp only
  split_ifs with h1 h2
  · exact le_refl _
  · exact ramp_ge 100 500 _ (le_refl _) (by norm_num) (by linarith [not_lt.mp h1])
  · exact ramp_ge 200 2000 _ (by norm_num) (by norm_num) (by linarith [not_lt.mp h2])

/-- The values the code computes at 2400 ms and 2999 ms, which print as
`150.00000000000006` and `399.33333333333337`, beside the exact 150 and 1198/3. -/
theorem tickInterval_rounds :
    tickInterval 2400 = 2638827906662401 / 17592186044416 ∧
      tickInterval 2400 - 150 = 1 / 2 ^ 44 ∧
      tickInterval 2999 = 3512573146868395 / 8796093022208 := by
  decide!

/-- C9: with `progress = e / 3000`, the interval is 50 when `progress < 0.7`; from
0.7 up to 0.9 it is `100 + (progress - 0.7) * 500` and from 0.9 on it is
`200 + (progress - 0.9) * 2000`, each evaluated in double arithmetic as the code
does, which is within a relative `2^-48` of the exact value of the formula; at
`e = 2100` (progress exactly 0.7) it is exactly 100 and not 50. The phase that the
code's comparison of doubles selects is the one the exact comparison selects. -/
theorem tickInterval_phases (e : ℤ) :
    (((e : ℚ) / 3000 < 7 / 10 ∧ tickInterval e = 50) ∨
      (7 / 10 ≤ (e : ℚ) / 3000 ∧ (e : ℚ) / 3000 < 9 / 10 ∧
        tickInterval e = roundDouble (100 + roundDouble (roundDouble
          (roundDouble ((e : ℚ) / 3000) - roundDouble (7 / 10)) * 500)) ∧
        |tickInterval e - (100 + ((e : ℚ) / 3000 - 7 / 10) * 500)| ≤
          (100 + ((e : ℚ) / 3000 - 7 / 10) * 500) / 2 ^ 48) ∨
      (9 / 10 ≤ (e : ℚ) / 3000 ∧
        tickInterval e = roundDouble (200 + roundDouble (roundDouble
          (roundDouble ((e : ℚ) / 3000) - roundDouble (9 / 10)) * 2000)) ∧
        |tickInterval e - (200 + ((e : ℚ) / 3000 - 9 / 10) * 2000)| ≤
          (200 + ((e : ℚ) / 3000 - 9 / 10) * 2000) / 2 ^ 48)) ∧
    ((2100 : ℤ) : ℚ) / 3000 = 7 / 10 ∧ tickInterval 2100 = 100 ∧ tickInterval 2100 ≠ 50 := by
  refine ⟨?_, by norm_num, by decide!, by decide!⟩
  have hd : ((duration : ℤ) : ℚ) = 3000 := by norm_num [duration]
  have h7 := progress_lt_seven e
  have h9 := progress_lt_nine e
  unfold tickInterval
  simp only
  split_ifs with h1 h2
  · exact Or.inl ⟨h7.mp h1, rfl⟩
  · have hx : 7 / 10 ≤ (e : ℚ) / 3000 := not_lt.mp (fun h => h1 (h7.mpr h))
    refine Or.inr (Or.inl ⟨hx, h9.mp h2, by rw [hd], ?_⟩)
    rw [hd]
    exact rampB_close _ hx
  · have hx : 9 / 10 ≤ (e : ℚ) / 3000 := not_lt.mp (fun h => h2 (h9.mpr h))
    refine Or.inr (Or.inr ⟨hx, by rw [hd], ?_⟩)
    rw [hd]
    exact rampC_close _ hx

/-! ## The resampling loop -/

theorem pick_range (maxNumber : ℤ) (hmax : 0 < maxNumber) (r : Random) :
    1 ≤ pick maxNumber r ∧ pick maxNumber r ≤ maxNumber := by
  unfold pick
  have hq : (0 : ℚ) < (maxNumber : ℚ) := by exact_mod_cast hmax
  have hr := double_lt_one r.val r.property.1 r.property.2.1 r.property.2.2
  have h0 : (0 : ℚ) ≤ r.val * (maxNumber : ℚ) := mul_nonneg r.property.1 (le_of_lt hq)
  have hnn := roundDouble_nonneg _ h0
  have hub := (roundDouble_bounds _ h0).2
  have h1 : roundDouble (r.val * (maxNumber : ℚ)) < (maxNumber : ℚ) := by
    have hle : r.val * (maxNumber : ℚ) ≤ (1 - 1 / 2 ^ 53) * (maxNumber : ℚ) :=
      mul_le_mul_of_nonneg_right hr (le_of_lt hq)
    have hle2 : r.val * (maxNumber : ℚ) * (1 + 1 / 2 ^ 53) ≤
        (1 - 1 / 2 ^ 53) * (maxNumber : ℚ) * (1 + 1 / 2 ^ 53) :=
      mul_le_mul_of_nonneg_right hle (by norm_num)
    have hlt : (1 - 1 / 2 ^ 53) * (maxNumber : ℚ) * (1 + 1 / 2 ^ 53) < (maxNumber : ℚ) := by
      have hc : ((1 : ℚ) - 1 / 2 ^ 53) * (1 + 1 / 2 ^ 53) < 1 := by norm_num
      have := mul_lt_mul_of_pos_left hc hq
      linarith
    linarith
  have hf0 : (0 : ℤ) ≤ ⌊roundDouble (r.val * (maxNumber : ℚ))⌋ := Int.floor_nonneg.mpr hnn
  have hf1 : ⌊roundDouble (r.val * (maxNumber : ℚ))⌋ < maxNumber := Int.floor_lt.mpr h1
  omega

/-- Random values at which the rounded product reaches an integer that the exact
product stays below: the code picks 6 and 68 where exact arithmetic would give 5
and 67; at the double nearest to 55/75 the code picks 55. -/
theorem pick_rounds :
    pick 75 nearFifteenth = 6 ∧ ⌊nearFifteenth.val * 75⌋ + 1 = 5 ∧
      pick 75 nearSixtySeven = 68 ∧ ⌊nearSixtySeven.val * 75⌋ + 1 = 67 ∧
      pick 75 nearFiftyFive = 55 := by
  decide!

theorem resample_skip (maxNumber : ℤ) (drawn : Finset ℤ) (pre rest : List Random)
    (hpre : ∀ x ∈ pre, pick maxNumber x ∈ drawn) :
    resample maxNumber drawn (pre ++ rest) = resample maxNumber drawn rest := by
  induction pre with
  | nil => rfl
  | cons x xs ih =>
    have hx : pick maxNumber x ∈ drawn := hpre x (List.mem_cons_self _ _)
    have hxs : ∀ y ∈ xs, pick maxNumber y ∈ drawn :=
      fun y hy => hpre y (List.mem_cons_of_mem _ hy)
    simp [resample, hx, ih hxs]

theorem resample_split (maxNumber : ℤ) (drawn : Finset ℤ) (rs : List Random)
    (h : ∃ r ∈ rs, pick maxNumber r ∉ drawn) :
    ∃ pre r post, rs = pre ++ r :: post ∧ (∀ x ∈ pre, pick maxNumber x ∈ drawn) ∧
      pick maxNumber r ∉ drawn := by
  induction rs with
  | nil => obtain ⟨r, hr, _⟩ := h; simp at hr
  | cons x xs ih =>
    by_cases hx : pick maxNumber x ∈ drawn
    · obtain ⟨r, hr, hnot⟩ := h
      have hrx : r ∈ xs := by
        rcases List.mem_cons.mp hr with rfl | h'
        · exact absurd hx hnot
        · exact h'
      obtain ⟨pre, r', post, hsplit, hpre, hr'⟩ := ih ⟨r, hrx, hnot⟩
      refine ⟨x :: pre, r', post, by simp [hsplit], ?_, hr'⟩
      intro y hy
      rcases List.mem_cons.mp hy with rfl | h'
      · exact hx
      · exact hpre y h'
    · exact ⟨[], x, xs, rfl, by simp, hx⟩

theorem resample_some (maxNumber : ℤ) (drawn : Finset ℤ) (rs rest : List Random) (n : ℤ)
    (h : resample maxNumber drawn rs = some (n, rest)) :
    n ∉ drawn ∧ ∃ r ∈ rs, n = pick maxNumber r := by
  induction rs with
  | nil => simp [resample] at h
  | cons x xs ih =>
    by_cases hx : pick maxNumber x ∈ drawn
    · simp only [resample, hx, if_true] at h
      obtain ⟨h1, r, hr, h2⟩ := ih h
      exact ⟨h1, r, List.mem_cons_of_mem _ hr, h2⟩
    · simp only [resample, hx, if_false, Option.some.injEq, Prod.mk.injEq] at h
      obtain ⟨h1, _⟩ := h
      subst h1
      exact ⟨hx, x, List.mem_cons_self _ _, rfl⟩

/-- C5: when the stream holds a value whose image is not drawn, the resampling
loop (the same one in `drawNumber` and in `animate`) leaves with
`floor(r * maxNumber) + 1`, the product being the double the code computes, for
the first such value `r`, having read the stream up to `r`; the result lies in
`[1, maxNumber]` and is not drawn. -/
theorem resample_first_undrawn (maxNumber : ℤ) (drawn : Finset ℤ) (rs : List Random)
    (hmax : 0 < maxNumber) (h : ∃ r ∈ rs, pick maxNumber r ∉ drawn) :
    ∃ pre r post, rs = pre ++ r :: post ∧ (∀ x ∈ pre, pick maxNumber x ∈ drawn) ∧
      pick maxNumber r ∉ drawn ∧
      resample maxNumber drawn rs = some (⌊roundDouble (r.val * (maxNumber : ℚ))⌋ + 1, post) ∧
      1 ≤ ⌊roundDouble (r.val * (maxNumber : ℚ))⌋ + 1 ∧
      ⌊roundDouble (r.val * (maxNumber : ℚ))⌋ + 1 ≤ maxNumber := by
  obtain ⟨pre, r, post, hsplit, hpre, hr⟩ := resample_split maxNumber drawn rs h
  refine ⟨pre, r, post, hsplit, hpre, hr, ?_, pick_range maxNumber hmax r⟩
  rw [hsplit, resample_skip maxNumber drawn pre _ hpre]
  simp only [resample, hr, if_false]
  rfl

theorem resample_first_undrawn_witness :
    ∃ pre r post, [nearFifteenth, nearSixtySeven, frac 5] = pre ++ r :: post ∧
      (∀ x ∈ pre, pick 75 x ∈ ({6} : Finset ℤ)) ∧ pick 75 r ∉ ({6} : Finset ℤ) ∧
      resample 75 {6} [nearFifteenth, nearSixtySeven, frac 5] =
        some (⌊roundDouble (r.val * ((75 : ℤ) : ℚ))⌋ + 1, post) ∧
      1 ≤ ⌊roundDouble (r.val * ((75 : ℤ) : ℚ))⌋ + 1 ∧
      ⌊roundDouble (r.val * ((75 : ℤ) : ℚ))⌋ + 1 ≤ 75 :=
  resample_first_undrawn 75 {6} [nearFifteenth, nearSixtySeven, frac 5] (by decide)
    ⟨nearSixtySeven, by simp, by decide!⟩

/-! ## The guards of `drawNumber` -/

/-- C3: while `isDrawing` is true a call of `drawNumber` changes nothing: the
fields, the button, the pending timers and the log (no cue, no notice, no
animation) are as before. -/
theorem drawNumber_while_drawing (g : BingoGame) (startTime now : ℤ) (rs : List Random)
    (h : g.isDrawing = true) : drawNumber g startTime now rs = some g := by
  simp [drawNumber, h]

theorem drawNumber_while_drawing_witness :
    busyGame.isDrawing = true ∧ drawNumber busyGame 10 10 [frac 4] = some busyGame :=
  ⟨rfl, drawNumber_while_drawing busyGame 10 10 [frac 4] rfl⟩

theorem drawNumber_exhausted_eq (g : BingoGame) (startTime now : ℤ) (rs : List Random)
    (h1 : g.isDrawing = false) (h2 : (g.drawnNumbers.card : ℤ) = g.maxNumber) :
    drawNumber g startTime now rs =
      some { g with log := g.log ++ [Effect.alert Notice.exhausted] } := by
  simp [drawNumber, h1, h2, BingoGame.emit]

/-- C4: with `isDrawing` false and `maxNumber` numbers drawn, `drawNumber` shows
the exhaustion notice and does nothing else: `drawnNumbers`, `currentNumber`,
`isDrawing`, the button and the pending timers are as before and the log grows by
the notice alone. -/
theorem drawNumber_exhausted (g : BingoGame) (startTime now : ℤ) (rs : List Random)
    (h1 : g.isDrawing = false) (h2 : (g.drawnNumbers.card : ℤ) = g.maxNumber) :
    drawNumber g startTime now rs =
      some { g with log := g.log ++ [Effect.alert Notice.exhausted] } :=
  drawNumber_exhausted_eq g startTime now rs h1 h2

theorem drawNumber_exhausted_witness :
    fullGame.isDrawing = false ∧ (fullGame.drawnNumbers.card : ℤ) = fullGame.maxNumber ∧
      drawNumber fullGame 0 0 [frac 4] =
        some { fullGame with log := fullGame.log ++ [Effect.alert Notice.exhausted] } :=
  ⟨rfl, by decide!, drawNumber_exhausted fullGame 0 0 [frac 4] rfl (by decide!)⟩

end Bingo

namespace Bingo

/-! ## One run of `animate` -/

theorem animate_final (g : BingoGame) (s t : ℤ) (cb : Option Callback) (now : ℤ)
    (rs : List Random) (h : duration ≤ now - s) :
    animate g s t cb now rs =
      some { g with timers := g.timers ++ [Timer.settle cb], log := g.log ++ finale t cb } := by
  have h' : ¬ (now - s < duration) := not_lt.mpr h
  simp [animate, h', BingoGame.emit, BingoGame.schedule, finale]

theorem animate_decoy (g : BingoGame) (s t : ℤ) (cb : Option Callback) (now : ℤ)
    (rs : List Random) (h : now - s < duration)
    (hready : DecoyReady g.maxNumber g.drawnNumbers rs) :
    ∃ n hue freq, animate g s t cb now rs =
      some { g with timers := g.timers ++ [Timer.animate s t cb],
                    log := g.log ++ decoyEffects s t cb now n hue freq } := by
  obtain ⟨pre, r, hue, freq, post, hsplit, hpre, hr⟩ := hready
  refine ⟨pick g.maxNumber r, hue, freq, ?_⟩
  have hres : resample g.maxNumber g.drawnNumbers rs =
      some (pick g.maxNumber r, hue :: freq :: post) := by
    rw [hsplit, resample_skip _ _ pre _ hpre]
    simp [resample, hr]
  simp [animate, h, BingoGame.emit, BingoGame.schedule, decoyEffects, hres]

theorem animate_some_decoy (g g1 : BingoGame) (s t : ℤ) (cb : Option Callback) (now : ℤ)
    (rs : List Random) (h : now - s < duration) (hs : animate g s t cb now rs = some g1) :
    ∃ n hue freq, g1 = { g with timers := g.timers ++ [Timer.animate s t cb],
                                log := g.log ++ decoyEffects s t cb now n hue freq } := by
  unfold animate at hs
  simp only [h, if_true] at hs
  split at hs
  · rename_i n hue freq rest _
    refine ⟨n, hue, freq, ?_⟩
    simp only [Option.some.injEq] at hs
    rw [← hs]
    simp [BingoGame.emit, BingoGame.schedule, decoyEffects]
  · simp at hs

/-! ## The chain of ticks -/

theorem runAnimation_settled (g : BingoGame) (ts : List Timer) (cb : Option Callback)
    (later : List (ℤ × List Random)) (h : g.timers = ts ++ [Timer.settle cb]) :
    runAnimation g later = some g := by
  cases later <;> simp [runAnimation, h]

theorem runAnimation_pending (g : BingoGame) (ts : List Timer) (s t : ℤ)
    (cb : Option Callback) (later : List (ℤ × List Random))
    (h : g.timers = ts ++ [Timer.animate s t cb]) :
    runAnimation g later = animateChain { g with timers := ts } s t cb later := by
  cases later with
  | nil => simp [runAnimation, animateChain, h]
  | cons tick later =>
    simp only [runAnimation, animateChain, h, List.getLast?_concat, List.dropLast_concat]
    cases animate { g with timers := ts } s t cb tick.1 tick.2 <;> rfl

theorem invocations_decoyEffects (s t : ℤ) (cb : Option Callback) (now n : ℤ)
    (hue freq : Random) : invocations (decoyEffects s t cb now n hue freq) = 0 := by
  simp [invocations, decoyEffects, Effect.isInvoke]

theorem decoysShown_decoyEffects (s t : ℤ) (cb : Option Callback) (now n : ℤ)
    (hue freq : Random) : decoysShown (decoyEffects s t cb now n hue freq) = 1 := by
  simp [decoysShown, decoyEffects, Effect.isDecoy]

theorem invocations_append (a b : List Effect) :
    invocations (a ++ b) = invocations a + invocations b := by
  simp [invocations]

theorem decoysShown_append (a b : List Effect) :
    decoysShown (a ++ b) = decoysShown a + decoysShown b := by
  simp [decoysShown]

theorem animateChain_total (s t : ℤ) (cb : Option Callback) :
    ∀ (ticks : List (ℤ × List Random)) (g : BingoGame) (i : ℕ) (x : ℤ × List Random),
      ticks[i]? = some x → duration ≤ x.1 - s →
      (∀ y ∈ ticks, y.1 - s < duration → DecoyReady g.maxNumber g.drawnNumbers y.2) →
      ∃ decoys, animateChain g s t cb ticks =
          some { g with timers := g.timers ++ [Timer.settle cb],
                        log := g.log ++ decoys ++ finale t cb } ∧
        invocations decoys = 0 ∧ decoysShown decoys ≤ i := by
  intro ticks
  induction ticks with
  | nil => intro g i x hx; simp at hx
  | cons tick later ih =>
    intro g i x hx hreach hrand
    by_cases hlt : tick.1 - s < duration
    · obtain ⟨n, hue, freq, hanim⟩ :=
        animate_decoy g s t cb tick.1 tick.2 hlt (hrand tick (List.mem_cons_self _ _) hlt)
      cases i with
      | zero =>
        simp only [List.getElem?_cons_zero, Option.some.injEq] at hx
        subst hx
        omega
      | succ j =>
        simp only [List.getElem?_cons_succ] at hx
        have hrand' : ∀ y ∈ later, y.1 - s < duration →
            DecoyReady g.maxNumber g.drawnNumbers y.2 :=
          fun y hy => hrand y (List.mem_cons_of_mem _ hy)
        obtain ⟨decoys, hchain, hinv, hshown⟩ :=
          ih { g with log := g.log ++ decoyEffects s t cb tick.1 n hue freq } j x hx hreach hrand'
        refine ⟨decoyEffects s t cb tick.1 n hue freq ++ decoys, ?_, ?_, ?_⟩
        · simp only [animateChain, hanim, Option.some_bind]
          rw [runAnimation_pending _ g.timers s t cb later rfl]
          simp only [hchain, List.append_assoc]
        · rw [invocations_append, invocations_decoyEffects, hinv]
        · rw [decoysShown_append, decoysShown_decoyEffects]
          omega
    · have hge : duration ≤ tick.1 - s := not_lt.mp hlt
      refine ⟨[], ?_, by simp [invocations], by simp [decoysShown]⟩
      simp only [animateChain, animate_final g s t cb tick.1 tick.2 hge, Option.some_bind,
        List.append_nil]
      exact runAnimation_settled _ g.timers cb later rfl

theorem animateChain_some (s t : ℤ) (cb : Option Callback) :
    ∀ (ticks : List (ℤ × List Random)) (g g1 : BingoGame),
      animateChain g s t cb ticks = some g1 →
      ∃ decoys, g1 = { g with timers := g.timers ++ [Timer.settle cb],
                              log := g.log ++ decoys ++ finale t cb } ∧
        invocations decoys = 0 := by
  intro ticks
  induction ticks with
  | nil => intro g g1 h; simp [animateChain] at h
  | cons tick later ih =>
    intro g g1 h
    by_cases hlt : tick.1 - s < duration
    · simp only [animateChain] at h
      cases hanim : animate g s t cb tick.1 tick.2 with
      | none => simp [hanim] at h
      | some g2 =>
        obtain ⟨n, hue, freq, hg2⟩ := animate_some_decoy g g2 s t cb tick.1 tick.2 hlt hanim
        simp only [hanim, Option.some_bind] at h
        subst hg2
        rw [runAnimation_pending _ g.timers s t cb later rfl] at h
        obtain ⟨decoys, hg1, hinv⟩ := ih _ g1 h
        refine ⟨decoyEffects s t cb tick.1 n hue freq ++ decoys, ?_, ?_⟩
        · rw [hg1]; simp only [List.append_assoc]
        · rw [invocations_append, invocations_decoyEffects, hinv]
    · have hge : duration ≤ tick.1 - s := not_lt.mp hlt
      simp only [animateChain, animate_final g s t cb tick.1 tick.2 hge, Option.some_bind] at h
      rw [runAnimation_settled _ g.timers cb later rfl] at h
      simp only [Option.some.injEq] at h
      exact ⟨[], by rw [← h]; simp, by simp [invocations]⟩

theorem spin_eq (g : BingoGame) (t : ℤ) (cb : Option Callback) (s : ℤ)
    (ticks : List (ℤ × List Random)) :
    spin g t cb s ticks =
      animateChain (g.emit [Effect.addClass DisplayClass.spinning]) s t cb ticks := by
  cases ticks <;> rfl

end Bingo

namespace Bingo

/-! ## The completion callback -/

theorem onComplete_fields (g : BingoGame) (n : ℤ) :
    (onComplete g n).drawnNumbers = insert n g.drawnNumbers ∧
    (onComplete g n).currentNumber = some n ∧
    (onComplete g n).isDrawing = false ∧
    (onComplete g n).drawButtonDisabled = false ∧
    (onComplete g n).maxNumber = g.maxNumber := by
  unfold onComplete
  simp only
  split_ifs <;> simp [BingoGame.schedule]

theorem onComplete_log (g : BingoGame) (n : ℤ) :
    ∃ tail, (onComplete g n).log = g.log ++ [Effect.cue Cue.fanfare, Effect.markNumber n,
        Effect.celebrateNumber n] ++ tail ∧ invocations tail = 0 := by
  unfold onComplete
  simp only
  split_ifs
  · exact ⟨[Effect.setTimeout Timer.gameOver 500], by simp [BingoGame.schedule],
      by simp [invocations, Effect.isInvoke]⟩
  · exact ⟨[], by simp, by simp [invocations]⟩

theorem onComplete_timers (g : BingoGame) (n : ℤ) :
    ∀ t ∈ (onComplete g n).timers, t ∈ g.timers ∨ t = Timer.gameOver := by
  unfold onComplete
  simp only
  split_ifs
  · intro t ht
    simp only [BingoGame.schedule, List.mem_append, List.mem_singleton] at ht
    exact ht
  · intro t ht; exact Or.inl ht

theorem fireSettle_settled (g : BingoGame) (ts : List Timer) (cb : Option Callback)
    (h : g.timers = ts ++ [Timer.settle cb]) :
    fireSettle g = some (settle { g with timers := ts } cb) := by
  simp [fireSettle, h]

theorem settle_commit (g : BingoGame) (n : ℤ) :
    ∃ tail, (settle g (some (Callback.commit n))).log =
        g.log ++ [Effect.removeClass DisplayClass.finalNumber, Effect.invoke (Callback.commit n),
          Effect.cue Cue.fanfare, Effect.markNumber n, Effect.celebrateNumber n] ++ tail ∧
      invocations tail = 0 ∧
      (settle g (some (Callback.commit n))).currentNumber = some n ∧
      (settle g (some (Callback.commit n))).drawnNumbers = insert n g.drawnNumbers ∧
      (settle g (some (Callback.commit n))).isDrawing = false ∧
      (settle g (some (Callback.commit n))).drawButtonDisabled = false ∧
      (settle g (some (Callback.commit n))).maxNumber = g.maxNumber ∧
      ∀ t ∈ (settle g (some (Callback.commit n))).timers, t ∈ g.timers ∨ t = Timer.gameOver := by
  obtain ⟨tail, hlog, htail⟩ := onComplete_log
    ((g.emit [Effect.removeClass DisplayClass.finalNumber]).emit
      [Effect.invoke (Callback.commit n)]) n
  obtain ⟨h1, h2, h3, h4, h5⟩ := onComplete_fields
    ((g.emit [Effect.removeClass DisplayClass.finalNumber]).emit
      [Effect.invoke (Callback.commit n)]) n
  refine ⟨tail, ?_, htail, h2, h1, h3, h4, h5, ?_⟩
  · simp only [settle, runCallback]
    rw [hlog]
    simp [BingoGame.emit]
  · exact onComplete_timers _ n

/-! ## One animation -/

/-- C6: for every target, every sequence of clock readings that reaches the
duration and every supply of decoy random values, the animation started by
`startRouletteAnimation(target, commit target)` ends with the callback called
exactly once, right after the target was displayed, the 500 ms settle timer was
scheduled and that timer fired; the number committed is the target, whatever
decoys were shown. -/
theorem roulette_callback_once (g : BingoGame) (target startTime : ℤ)
    (ticks : List (ℤ × List Random))
    (hreach : ∃ x ∈ ticks, duration ≤ x.1 - startTime)
    (hrand : ∀ y ∈ ticks, y.1 - startTime < duration →
      DecoyReady g.maxNumber g.drawnNumbers y.2) :
    ∃ g2 before after,
      roulette g target (some (Callback.commit target)) startTime ticks = some g2 ∧
      g2.log = before ++ [Effect.display target Color.green,
          Effect.addClass DisplayClass.finalNumber,
          Effect.setTimeout (Timer.settle (some (Callback.commit target))) 500,
          Effect.removeClass DisplayClass.finalNumber,
          Effect.invoke (Callback.commit target)] ++ after ∧
      invocations before = invocations g.log ∧ invocations after = 0 ∧
      invocations g2.log = invocations g.log + 1 ∧
      g2.currentNumber = some target ∧
      g2.drawnNumbers = insert target g.drawnNumbers := by
  obtain ⟨x, hx, hge⟩ := hreach
  obtain ⟨i, hi⟩ := List.getElem?_of_mem hx
  obtain ⟨decoys, hchain, hinv, _⟩ :=
    animateChain_total startTime target (some (Callback.commit target)) ticks
      (g.emit [Effect.addClass DisplayClass.spinning]) i x hi hge hrand
  obtain ⟨G0, hG0, htm, hG0log, hG0drawn⟩ : ∃ G0 : BingoGame,
      animateChain (g.emit [Effect.addClass DisplayClass.spinning]) startTime target
        (some (Callback.commit target)) ticks = some G0 ∧
      G0.timers = g.timers ++ [Timer.settle (some (Callback.commit target))] ∧
      G0.log = g.log ++ [Effect.addClass DisplayClass.spinning] ++ decoys ++
        finale target (some (Callback.commit target)) ∧
      G0.drawnNumbers = g.drawnNumbers := ⟨_, hchain, rfl, rfl, rfl⟩
  obtain ⟨G, hGdef⟩ : ∃ G : BingoGame, G = { G0 with timers := g.timers } := ⟨_, rfl⟩
  have hGlog : G.log = g.log ++ [Effect.addClass DisplayClass.spinning] ++ decoys ++
      finale target (some (Callback.commit target)) := by rw [hGdef]; exact hG0log
  have hGdrawn : G.drawnNumbers = g.drawnNumbers := by rw [hGdef]; exact hG0drawn
  have hr : roulette g target (some (Callback.commit target)) startTime ticks =
      some (settle G (some (Callback.commit target))) := by
    unfold roulette
    rw [spin_eq, hG0, Option.some_bind, hGdef]
    exact fireSettle_settled G0 g.timers (some (Callback.commit target)) htm
  obtain ⟨tail, hlog, htail, hcur, hdrawn, _⟩ := settle_commit G target
  have hlog2 : (settle G (some (Callback.commit target))).log =
      (g.log ++ [Effect.addClass DisplayClass.spinning] ++ decoys ++
        [Effect.removeClass DisplayClass.spinning]) ++
      [Effect.display target Color.green, Effect.addClass DisplayClass.finalNumber,
        Effect.setTimeout (Timer.settle (some (Callback.commit target))) 500,
        Effect.removeClass DisplayClass.finalNumber,
        Effect.invoke (Callback.commit target)] ++
      ([Effect.cue Cue.fanfare, Effect.markNumber target, Effect.celebrateNumber target] ++
        tail) := by
    rw [hlog, hGlog]
    simp [finale]
  refine ⟨_, _, _, hr, hlog2, ?_, ?_, ?_, hcur, by rw [hdrawn, hGdrawn]⟩
  · rw [invocations_append, invocations_append, invocations_append, hinv]
    simp [invocations, Effect.isInvoke]
  · rw [invocations_append, htail]
    simp [invocations, Effect.isInvoke]
  · rw [hlog2]
    simp only [invocations_append, hinv, htail]
    simp [invocations, Effect.isInvoke]

theorem roulette_callback_once_witness :
    ∃ g2 before after,
      roulette BingoGame.new 7 (some (Callback.commit 7)) 0
          [(0, [frac 3, frac 1, frac 2]), (2500, [frac 9, frac 1, frac 2]), (3100, [])] =
        some g2 ∧
      g2.log = before ++ [Effect.display 7 Color.green,
          Effect.addClass DisplayClass.finalNumber,
          Effect.setTimeout (Timer.settle (some (Callback.commit 7))) 500,
          Effect.removeClass DisplayClass.finalNumber,
          Effect.invoke (Callback.commit 7)] ++ after ∧
      invocations before = invocations BingoGame.new.log ∧ invocations after = 0 ∧
      invocations g2.log = invocations BingoGame.new.log + 1 ∧
      g2.currentNumber = some 7 ∧
      g2.drawnNumbers = insert 7 BingoGame.new.drawnNumbers :=
  roulette_callback_once BingoGame.new 7 0
    [(0, [frac 3, frac 1, frac 2]), (2500, [frac 9, frac 1, frac 2]), (3100, [])]
    ⟨(3100, []), by simp, by decide⟩
    (by
      intro y hy hlt
      simp only [List.mem_cons, List.mem_singleton, List.not_mem_nil, or_false] at hy
      rcases hy with rfl | rfl | rfl
      · exact ⟨[], frac 3, frac 1, frac 2, [], rfl, by simp, by simp [BingoGame.new]⟩
      · exact ⟨[], frac 9, frac 1, frac 2, [], rfl, by simp, by simp [BingoGame.new]⟩
      · exact absurd hlt (by decide))

/-! ## Termination of the animation -/

theorem elapsed_grows (s : ℤ) :
    ∀ (ticks : List (ℤ × List Random)) (c : ℤ) (k : ℕ) (x : ℤ × List Random),
      List.Chain' (Timely s) ticks → (∀ a ∈ ticks.head?, c ≤ a.1 - s) →
      ticks[k]? = some x →
      (∃ j y, j ≤ k ∧ ticks[j]? = some y ∧ duration ≤ y.1 - s) ∨ c + 50 * (k : ℤ) ≤ x.1 - s := by
  intro ticks
  induction ticks with
  | nil => intro c k x _ _ hx; simp at hx
  | cons a rest ih =>
    intro c k x hchain hhead hx
    have ha : c ≤ a.1 - s := hhead a (by simp)
    cases k with
    | zero =>
      simp only [List.getElem?_cons_zero, Option.some.injEq] at hx
      subst hx
      right; simpa using ha
    | succ k =>
      simp only [List.getElem?_cons_succ] at hx
      by_cases hlt : a.1 - s < duration
      · have hrest : List.Chain' (Timely s) rest := (List.chain'_cons'.mp hchain).2
        have hnext : ∀ b ∈ rest.head?, c + 50 ≤ b.1 - s := by
          intro b hb
          have hab : Timely s a b := (List.chain'_cons'.mp hchain).1 b hb
          have h1 := hab hlt
          have h2 := tickInterval_ge (a.1 - s)
          have h3 : ((a.1 + 50 : ℤ) : ℚ) ≤ (b.1 : ℚ) := by push_cast; linarith
          have h4 : a.1 + 50 ≤ b.1 := by exact_mod_cast h3
          omega
        rcases ih (c + 50) k x hrest hnext hx with ⟨j, y, hj, hy, hge⟩ | h
        · exact Or.inl ⟨j + 1, y, by omega, by simpa using hy, hge⟩
        · right; push_cast; omega
      · exact Or.inl ⟨0, a, by omega, by simp, not_lt.mp hlt⟩

/-- C10: when the first clock reading is not before the start and every tick that
shows a decoy is followed by the next one no earlier than the interval it asked
for, the animation ends within 61 ticks: every interval is at least 50 ms, at
most 60 decoys are shown, then the target is displayed and only the settle timer
is left scheduled (no further `animate` timer). -/
theorem animation_terminates (g : BingoGame) (target : ℤ) (cb : Option Callback)
    (startTime : ℤ) (ticks : List (ℤ × List Random))
    (hlen : 61 ≤ ticks.length)
    (hclock : ∀ a ∈ ticks.head?, startTime ≤ a.1)
    (htime : List.Chain' (Timely startTime) ticks)
    (hrand : ∀ y ∈ ticks, y.1 - startTime < duration →
      DecoyReady g.maxNumber g.drawnNumbers y.2) :
    (∀ e : ℤ, 50 ≤ tickInterval e) ∧
    ∃ decoys, spin g target cb startTime ticks =
        some { g with timers := g.timers ++ [Timer.settle cb],
                      log := g.log ++ [Effect.addClass DisplayClass.spinning] ++ decoys ++
                        finale target cb } ∧
      decoysShown decoys ≤ 60 ∧ invocations decoys = 0 := by
  refine ⟨tickInterval_ge, ?_⟩
  have h60 : 60 < ticks.length := by omega
  have hx : ticks[60]? = some (ticks[60]) := List.getElem?_eq_getElem h60
  have hhead : ∀ a ∈ ticks.head?, (0 : ℤ) ≤ a.1 - startTime := by
    intro a ha
    have := hclock a ha
    omega
  have key : ∃ j y, j ≤ 60 ∧ ticks[j]? = some y ∧ duration ≤ y.1 - startTime := by
    rcases elapsed_grows startTime ticks 0 60 _ htime hhead hx with h | h
    · exact h
    · exact ⟨60, _, le_refl _, hx, by unfold duration; push_cast at h; omega⟩
  obtain ⟨j, y, hj, hy, hge⟩ := key
  obtain ⟨decoys, hchain, hinv, hshown⟩ :=
    animateChain_total startTime target cb ticks
      (g.emit [Effect.addClass DisplayClass.spinning]) j y hy hge hrand
  refine ⟨decoys, ?_, by omega, hinv⟩
  rw [spin_eq, hchain]
  rfl

theorem animation_terminates_witness :
    (∀ e : ℤ, 50 ≤ tickInterval e) ∧
    ∃ decoys, spin BingoGame.new 7 (some (Callback.commit 7)) 0 slowTicks =
        some { BingoGame.new with
                timers := BingoGame.new.timers ++ [Timer.settle (some (Callback.commit 7))],
                log := BingoGame.new.log ++ [Effect.addClass DisplayClass.spinning] ++ decoys ++
                  finale 7 (some (Callback.commit 7)) } ∧
      decoysShown decoys ≤ 60 ∧ invocations decoys = 0 :=
  animation_terminates BingoGame.new 7 (some (Callback.commit 7)) 0 slowTicks
    (by decide) (by decide)
    ((List.chain'_map (fun i : ℕ => ((i : ℤ) * 400, [frac 0, frac 0, frac 0]))).mpr
      ((List.chain'_range_succ _ 60).mpr (by decide!)))
    (by
      intro y hy _
      simp only [slowTicks, List.mem_map] at hy
      obtain ⟨i, _, rfl⟩ := hy
      exact ⟨[], frac 0, frac 0, frac 0, [], rfl, by simp, by simp [BingoGame.new]⟩)

end Bingo

namespace Bingo

/-! ## Draw cycles -/

theorem drawCycle_allowed (g : BingoGame) (startTime now : ℤ) (rs : List Random)
    (later : List (ℤ × List Random)) (h1 : g.isDrawing = false)
    (h2 : (g.drawnNumbers.card : ℤ) < g.maxNumber) :
    drawCycle g startTime now rs later =
      match resample g.maxNumber g.drawnNumbers rs with
      | none => none
      | some (n, rest) =>
        (animateChain
          { g with
            log := g.log ++ [Effect.cue Cue.buttonClick, Effect.cue Cue.drumRoll,
              Effect.addClass DisplayClass.spinning]
            isDrawing := true
            drawButtonDisabled := true }
          startTime n (some (Callback.commit n)) ((now, rest) :: later)).bind fireSettle := by
  have h3 : ¬ ((g.drawnNumbers.card : ℤ) ≥ g.maxNumber) := not_le.mpr h2
  unfold drawCycle drawNumber
  simp only [h1, h3, Bool.false_eq_true, if_false]
  cases resample g.maxNumber g.drawnNumbers rs with
  | none => rfl
  | some p =>
    obtain ⟨n, rest⟩ := p
    simp [startRouletteAnimation, animateChain, BingoGame.emit]

theorem drawCycle_some (g g2 : BingoGame) (startTime now : ℤ) (rs : List Random)
    (later : List (ℤ × List Random)) (h1 : g.isDrawing = false)
    (h2 : (g.drawnNumbers.card : ℤ) < g.maxNumber)
    (h : drawCycle g startTime now rs later = some g2) :
    ∃ n, n ∉ g.drawnNumbers ∧ 1 ≤ n ∧ n ≤ g.maxNumber ∧
      g2.drawnNumbers = insert n g.drawnNumbers ∧ g2.currentNumber = some n ∧
      g2.isDrawing = false ∧ g2.drawButtonDisabled = false ∧ g2.maxNumber = g.maxNumber ∧
      (∀ t ∈ g2.timers, t ∈ g.timers ∨ t = Timer.gameOver) := by
  rw [drawCycle_allowed g startTime now rs later h1 h2] at h
  cases hres : resample g.maxNumber g.drawnNumbers rs with
  | none => simp [hres] at h
  | some p =>
    obtain ⟨n, rest⟩ := p
    simp only [hres] at h
    obtain ⟨hnot, r, _, hn⟩ := resample_some _ _ _ _ _ hres
    have hmax : 0 < g.maxNumber := by
      have : (0 : ℤ) ≤ (g.drawnNumbers.card : ℤ) := Int.natCast_nonneg _
      omega
    have hrange := pick_range g.maxNumber hmax r
    rw [← hn] at hrange
    cases hchain : animateChain
        { g with
          log := g.log ++ [Effect.cue Cue.buttonClick, Effect.cue Cue.drumRoll,
            Effect.addClass DisplayClass.spinning]
          isDrawing := true
          drawButtonDisabled := true }
        startTime n (some (Callback.commit n)) ((now, rest) :: later) with
    | none => simp [hchain] at h
    | some G0 =>
      simp only [hchain, Option.some_bind] at h
      obtain ⟨decoys, hG0, _⟩ := animateChain_some _ _ _ _ _ _ hchain
      have htm : G0.timers = g.timers ++ [Timer.settle (some (Callback.commit n))] := by
        rw [hG0]
      rw [fireSettle_settled G0 g.timers _ htm] at h
      simp only [Option.some.injEq] at h
      obtain ⟨_, _, _, hcur, hdrawn, hdrawing, hbutton, hmaxeq, htimers⟩ :=
        settle_commit { G0 with timers := g.timers } n
      rw [h] at hcur hdrawn hdrawing hbutton hmaxeq htimers
      refine ⟨n, hnot, hrange.1, hrange.2, ?_, hcur, hdrawing, hbutton, ?_, htimers⟩
      · rw [hdrawn, hG0]
      · rw [hmaxeq, hG0]

/-- C1: from any state in which a draw is admitted (`isDrawing` false, fewer than
`maxNumber` numbers drawn), a completed draw cycle leaves `drawnNumbers` equal to
the old set plus one number that was not in it; its size grows by exactly one. -/
theorem drawCycle_adds_one (g : BingoGame) (startTime now : ℤ) (rs : List Random)
    (later : List (ℤ × List Random)) (h1 : g.isDrawing = false)
    (h2 : (g.drawnNumbers.card : ℤ) < g.maxNumber)
    (hdone : (drawCycle g startTime now rs later).isSome = true) :
    ∃ g2 n, drawCycle g startTime now rs later = some g2 ∧ n ∉ g.drawnNumbers ∧
      g2.drawnNumbers = insert n g.drawnNumbers ∧
      g2.drawnNumbers.card = g.drawnNumbers.card + 1 := by
  obtain ⟨g2, hg2⟩ := Option.isSome_iff_exists.mp hdone
  obtain ⟨n, hnot, _, _, hdrawn, _⟩ := drawCycle_some g g2 startTime now rs later h1 h2 hg2
  exact ⟨g2, n, hg2, hnot, hdrawn, by rw [hdrawn, Finset.card_insert_of_not_mem hnot]⟩

theorem drawCycle_adds_one_witness :
    ∃ g2 n, drawCycle busyGame.idle 0 0 [frac 7, frac 2, frac 4, frac 4, frac 4]
        [(1000, [frac 5, frac 1, frac 1]), (3000, [])] = some g2 ∧
      n ∉ busyGame.idle.drawnNumbers ∧
      g2.drawnNumbers = insert n busyGame.idle.drawnNumbers ∧
      g2.drawnNumbers.card = busyGame.idle.drawnNumbers.card + 1 :=
  drawCycle_adds_one busyGame.idle 0 0 [frac 7, frac 2, frac 4, frac 4, frac 4]
    [(1000, [frac 5, frac 1, frac 1]), (3000, [])] (by decide) (by decide!) (by decide!)

/-- C7: one draw cycle on a new game leaves `drawnNumbers` a singleton `{n}` with
`1 ≤ n ≤ 75`, `currentNumber = n`, `isDrawing` false and the draw button enabled;
after every completed draw cycle that was admitted, `currentNumber` is the number
just added to `drawnNumbers` and `isDrawing` is false. -/
theorem drawCycle_current (g : BingoGame) (startTime now : ℤ) (rs : List Random)
    (later : List (ℤ × List Random)) (h1 : g.isDrawing = false)
    (h2 : (g.drawnNumbers.card : ℤ) < g.maxNumber)
    (hdone : (drawCycle g startTime now rs later).isSome = true) :
    ∃ g2 n, drawCycle g startTime now rs later = some g2 ∧ n ∉ g.drawnNumbers ∧
      1 ≤ n ∧ n ≤ g.maxNumber ∧
      g2.drawnNumbers = insert n g.drawnNumbers ∧ g2.currentNumber = some n ∧
      g2.isDrawing = false ∧ g2.drawButtonDisabled = false ∧
      (g = BingoGame.new → g2.drawnNumbers = {n} ∧ n ≤ 75) := by
  obtain ⟨g2, hg2⟩ := Option.isSome_iff_exists.mp hdone
  obtain ⟨n, hnot, hlo, hhi, hdrawn, hcur, hdrawing, hbutton, _⟩ :=
    drawCycle_some g g2 startTime now rs later h1 h2 hg2
  refine ⟨g2, n, hg2, hnot, hlo, hhi, hdrawn, hcur, hdrawing, hbutton, ?_⟩
  intro hnew
  subst hnew
  exact ⟨by rw [hdrawn]; rfl, hhi⟩

theorem drawCycle_current_witness :
    ∃ g2 n, drawCycle BingoGame.new 0 0 [frac 7, frac 2, frac 4, frac 4]
        [(1000, [frac 5, frac 1, frac 1]), (3000, [])] = some g2 ∧
      n ∉ BingoGame.new.drawnNumbers ∧ 1 ≤ n ∧ n ≤ BingoGame.new.maxNumber ∧
      g2.drawnNumbers = insert n BingoGame.new.drawnNumbers ∧ g2.currentNumber = some n ∧
      g2.isDrawing = false ∧ g2.drawButtonDisabled = false ∧
      (BingoGame.new = BingoGame.new → g2.drawnNumbers = {n} ∧ n ≤ 75) :=
  drawCycle_current BingoGame.new 0 0 [frac 7, frac 2, frac 4, frac 4]
    [(1000, [frac 5, frac 1, frac 1]), (3000, [])] (by decide) (by decide!) (by decide!)

end Bingo

namespace Bingo

/-! ## Seventy-five draws -/

theorem getLast?_gameOver (l : List Timer) (h : ∀ t ∈ l, t = Timer.gameOver) :
    l.getLast? = none ∨ l.getLast? = some Timer.gameOver := by
  cases hl : l.getLast? with
  | none => exact Or.inl rfl
  | some t =>
    have ht : t ∈ l := List.mem_of_getLast?_eq_some hl
    rw [h t ht]
    exact Or.inr rfl

theorem drawCycle_full (g : BingoGame) (startTime now : ℤ) (rs : List Random)
    (later : List (ℤ × List Random)) (hidle : Idle g)
    (hfull : ¬ ((g.drawnNumbers.card : ℤ) < g.maxNumber)) :
    drawCycle g startTime now rs later = none := by
  obtain ⟨_, hdrawing, _, htimers⟩ := hidle
  have hge : (g.drawnNumbers.card : ℤ) ≥ g.maxNumber := not_lt.mp hfull
  unfold drawCycle drawNumber
  simp only [hdrawing, hge, Bool.false_eq_true, if_false, if_true, Option.some_bind]
  have hlast := getLast?_gameOver g.timers htimers
  have hrun : runAnimation (g.emit [Effect.alert Notice.exhausted]) later =
      some (g.emit [Effect.alert Notice.exhausted]) := by
    cases later <;> rcases hlast with h | h <;> simp [runAnimation, BingoGame.emit, h]
  rw [hrun, Option.some_bind]
  rcases hlast with h | h <;> simp [fireSettle, BingoGame.emit, h]

theorem drawCycle_idle (g g2 : BingoGame) (startTime now : ℤ) (rs : List Random)
    (later : List (ℤ × List Random)) (hidle : Idle g)
    (h : drawCycle g startTime now rs later = some g2) :
    Idle g2 ∧ g2.drawnNumbers.card = g.drawnNumbers.card + 1 := by
  by_cases hlt : (g.drawnNumbers.card : ℤ) < g.maxNumber
  · obtain ⟨hmax, hdrawing, hrange, htimers⟩ := hidle
    obtain ⟨n, hnot, hlo, hhi, hdrawn, _, hdrawing2, _, hmax2, htimers2⟩ :=
      drawCycle_some g g2 startTime now rs later hdrawing hlt h
    refine ⟨⟨by rw [hmax2, hmax], hdrawing2, ?_, ?_⟩, ?_⟩
    · intro m hm
      rw [hdrawn, Finset.mem_insert] at hm
      rcases hm with rfl | hm
      · exact ⟨hlo, by rw [hmax] at hhi; exact hhi⟩
      · exact hrange m hm
    · intro t ht
      rcases htimers2 t ht with h' | h'
      · exact htimers t h'
      · exact h'
    · rw [hdrawn, Finset.card_insert_of_not_mem hnot]
  · rw [drawCycle_full g startTime now rs later hidle hlt] at h
    simp at h

theorem drawCycles_idle :
    ∀ (cs : List CycleInput) (g g2 : BingoGame), Idle g → drawCycles g cs = some g2 →
      Idle g2 ∧ g2.drawnNumbers.card = g.drawnNumbers.card + cs.length := by
  intro cs
  induction cs with
  | nil =>
    intro g g2 hidle h
    simp only [drawCycles, Option.some.injEq] at h
    subst h
    exact ⟨hidle, rfl⟩
  | cons c cs ih =>
    intro g g2 hidle h
    simp only [drawCycles] at h
    cases hc : drawCycle g c.startTime c.now c.rs c.later with
    | none => simp [hc] at h
    | some g1 =>
      simp only [hc] at h
      obtain ⟨hidle1, hcard1⟩ := drawCycle_idle g g1 _ _ _ _ hidle hc
      obtain ⟨hidle2, hcard2⟩ := ih g1 g2 hidle1 h
      refine ⟨hidle2, ?_⟩
      rw [hcard2, hcard1, List.length_cons]
      omega

theorem idle_new : Idle BingoGame.new := by
  refine ⟨rfl, rfl, ?_, ?_⟩
  · intro n hn; simp [BingoGame.new] at hn
  · intro t ht; simp [BingoGame.new] at ht

theorem drawn_subset_Icc (s : Finset ℤ) (h : ∀ n ∈ s, 1 ≤ n ∧ n ≤ 75) :
    s ⊆ Finset.Icc 1 75 := by
  intro n hn
  exact Finset.mem_Icc.mpr (h n hn)

/-- C8: after 75 completed draw cycles on a new game `drawnNumbers` is exactly
`{1, ..., 75}`, whatever random values and clock readings there were, and a
further call of `drawNumber` shows the exhaustion notice and starts no draw. -/
theorem drawCycles_exhaust (cs : List CycleInput) (hlen : cs.length = 75)
    (hdone : (drawCycles BingoGame.new cs).isSome = true) :
    ∃ g, drawCycles BingoGame.new cs = some g ∧ g.drawnNumbers = Finset.Icc 1 75 ∧
      ∀ (startTime now : ℤ) (rs : List Random),
        drawNumber g startTime now rs =
          some { g with log := g.log ++ [Effect.alert Notice.exhausted] } := by
  obtain ⟨g, hg⟩ := Option.isSome_iff_exists.mp hdone
  obtain ⟨⟨hmax, hdrawing, hrange, _⟩, hcard⟩ := drawCycles_idle cs BingoGame.new g idle_new hg
  have hcard75 : g.drawnNumbers.card = 75 := by
    rw [hcard, hlen]; rfl
  refine ⟨g, hg, ?_, ?_⟩
  · apply Finset.eq_of_subset_of_card_le (drawn_subset_Icc _ hrange)
    rw [hcard75]
    simp
  · intro startTime now rs
    apply drawNumber_exhausted_eq g startTime now rs hdrawing
    rw [hcard75, hmax]
    rfl

theorem drawCycles_exhaust_witness :
    ∃ g, drawCycles BingoGame.new allCycles = some g ∧ g.drawnNumbers = Finset.Icc 1 75 ∧
      ∀ (startTime now : ℤ) (rs : List Random),
        drawNumber g startTime now rs =
          some { g with log := g.log ++ [Effect.alert Notice.exhausted] } :=
  drawCycles_exhaust allCycles (by decide) (by decide!)

end Bingo

namespace Bingo

/-! ## The range of `drawnNumbers` in every reachable state -/

theorem animate_some (g g1 : BingoGame) (s t : ℤ) (cb : Option Callback) (now : ℤ)
    (rs : List Random) (h : animate g s t cb now rs = some g1) :
    ∃ tm log, (tm = Timer.animate s t cb ∨ tm = Timer.settle cb) ∧
      g1 = { g with timers := g.timers ++ [tm], log := log } := by
  by_cases hlt : now - s < duration
  · obtain ⟨n, hue, freq, hg1⟩ := animate_some_decoy g g1 s t cb now rs hlt h
    exact ⟨_, _, Or.inl rfl, hg1⟩
  · rw [animate_final g s t cb now rs (not_lt.mp hlt)] at h
    simp only [Option.some.injEq] at h
    exact ⟨_, _, Or.inr rfl, h.symm⟩

theorem safe_animate (g g1 : BingoGame) (s t : ℤ) (cb : Option Callback) (now : ℤ)
    (rs : List Random) (hsafe : Safe g) (hcb : TimerSafe (Timer.settle cb))
    (h : animate g s t cb now rs = some g1) : Safe g1 := by
  obtain ⟨tm, log, htm, hg1⟩ := animate_some g g1 s t cb now rs h
  obtain ⟨hmax, hrange, htimers⟩ := hsafe
  subst hg1
  refine ⟨hmax, hrange, ?_⟩
  intro x hx
  simp only [List.mem_append, List.mem_singleton] at hx
  rcases hx with hx | rfl
  · exact htimers x hx
  · rcases htm with rfl | rfl
    · cases cb with
      | none => trivial
      | some c => cases c; exact hcb
    · exact hcb

theorem safe_drawNumber (g g1 : BingoGame) (startTime now : ℤ) (rs : List Random)
    (hsafe : Safe g) (h : drawNumber g startTime now rs = some g1) : Safe g1 := by
  unfold drawNumber at h
  split_ifs at h with hd hfull
  · simp only [Option.some.injEq] at h
    rw [← h]; exact hsafe
  · simp only [Option.some.injEq] at h
    rw [← h]; exact hsafe
  · simp only at h
    cases hres : resample g.maxNumber g.drawnNumbers rs with
    | none => simp [hres] at h
    | some p =>
      obtain ⟨n, rest⟩ := p
      simp only [hres] at h
      obtain ⟨_, r, _, hn⟩ := resample_some _ _ _ _ _ hres
      have hrange := pick_range g.maxNumber (by rw [hsafe.1]; decide) r
      rw [← hn, hsafe.1] at hrange
      unfold startRouletteAnimation at h
      refine safe_animate _ g1 startTime n (some (Callback.commit n)) now rest ?_ hrange h
      exact ⟨hsafe.1, hsafe.2.1, hsafe.2.2⟩

theorem safe_settle (g : BingoGame) (cb : Option Callback) (hsafe : Safe g)
    (hcb : TimerSafe (Timer.settle cb)) : Safe (settle g cb) := by
  obtain ⟨hmax, hrange, htimers⟩ := hsafe
  cases cb with
  | none => exact ⟨hmax, hrange, htimers⟩
  | some c =>
    cases c with
    | commit n =>
      obtain ⟨_, _, _, _, hdrawn, _, _, hmax2, htimers2⟩ := settle_commit g n
      refine ⟨by rw [hmax2, hmax], ?_, ?_⟩
      · intro m hm
        rw [hdrawn, Finset.mem_insert] at hm
        rcases hm with rfl | hm
        · exact hcb
        · exact hrange m hm
      · intro t ht
        rcases htimers2 t ht with h' | rfl
        · exact htimers t h'
        · trivial

theorem safe_step (g g1 : BingoGame) (e : Event) (hsafe : Safe g)
    (h : step g e = some g1) : Safe g1 := by
  cases e with
  | drawNumber startTime now rs => exact safe_drawNumber g g1 startTime now rs hsafe h
  | timeout t now rs =>
    simp only [step] at h
    split_ifs at h with hmem
    obtain ⟨hmax, hrange, htimers⟩ := hsafe
    have hsafe2 : Safe { g with timers := g.timers.erase t } :=
      ⟨hmax, hrange, fun x hx => htimers x (List.mem_of_mem_erase hx)⟩
    have ht : TimerSafe t := htimers t hmem
    cases t with
    | animate s tn cb =>
      have hcb : TimerSafe (Timer.settle cb) := by
        cases cb with
        | none => trivial
        | some c => cases c; exact ht
      exact safe_animate _ g1 s tn cb now rs hsafe2 hcb h
    | settle cb =>
      simp only [runTimer, Option.some.injEq] at h
      rw [← h]
      exact safe_settle _ cb hsafe2 ht
    | gameOver =>
      simp only [runTimer, Option.some.injEq] at h
      rw [← h]
      exact hsafe2

theorem safe_run :
    ∀ (es : List Event) (g g1 : BingoGame), Safe g → run g es = some g1 → Safe g1 := by
  intro es
  induction es with
  | nil =>
    intro g g1 hsafe h
    simp only [run, Option.some.injEq] at h
    rw [← h]; exact hsafe
  | cons e es ih =>
    intro g g1 hsafe h
    simp only [run] at h
    cases hs : step g e with
    | none => simp [hs] at h
    | some g2 =>
      simp only [hs] at h
      exact ih g2 g1 (safe_step g g2 e hsafe hs) h

theorem safe_new : Safe BingoGame.new := by
  refine ⟨rfl, ?_, ?_⟩
  · intro n hn; simp [BingoGame.new] at hn
  · intro t ht; simp [BingoGame.new] at ht

/-- C2: in every state reached from a new game by calls of `drawNumber` and
firings of pending timers (animation ticks, settle timers with the completion
callback, game-over notices), `maxNumber` is 75, every member of `drawnNumbers`
lies in `[1, maxNumber]` and `drawnNumbers` has at most `maxNumber` members. -/
theorem drawn_in_range (es : List Event)
    (hrun : (run BingoGame.new es).isSome = true) :
    ∃ g, run BingoGame.new es = some g ∧ g.maxNumber = 75 ∧
      (∀ n ∈ g.drawnNumbers, 1 ≤ n ∧ n ≤ g.maxNumber) ∧
      (g.drawnNumbers.card : ℤ) ≤ g.maxNumber := by
  obtain ⟨g, hg⟩ := Option.isSome_iff_exists.mp hrun
  obtain ⟨hmax, hrange, _⟩ := safe_run es BingoGame.new g safe_new hg
  refine ⟨g, hg, hmax, by rw [hmax]; exact hrange, ?_⟩
  have hcard := Finset.card_le_card (drawn_subset_Icc _ hrange)
  simp only [Int.card_Icc] at hcard
  rw [hmax]
  have h75 : g.drawnNumbers.card ≤ 75 := by simpa using hcard
  exact_mod_cast h75

theorem drawn_in_range_witness :
    ∃ g, run BingoGame.new sampleEvents = some g ∧ g.maxNumber = 75 ∧
      (∀ n ∈ g.drawnNumbers, 1 ≤ n ∧ n ≤ g.maxNumber) ∧
      (g.drawnNumbers.card : ℤ) ≤ g.maxNumber :=
  drawn_in_range sampleEvents (by decide!)

end Bingo

namespace Bingo

/-! ## Draw cycles are runs of events, and they complete -/

theorem run_append (es1 es2 : List Event) :
    ∀ g : BingoGame, run g (es1 ++ es2) = (run g es1).bind (fun g1 => run g1 es2) := by
  induction es1 with
  | nil => intro g; rfl
  | cons e es ih =>
    intro g
    simp only [List.cons_append, run]
    cases step g e with
    | none => rfl
    | some g1 => exact ih g1

theorem erase_last (ts : List Timer) (t : Timer) (h : t ∉ ts) : (ts ++ [t]).erase t = ts := by
  rw [List.erase_append_right _ h]
  simp

theorem runAnimation_events (s t : ℤ) (cb : Option Callback) :
    ∀ (later : List (ℤ × List Random)) (g g1 : BingoGame) (ts : List Timer),
      g.timers = ts ++ [Timer.animate s t cb] → Timer.animate s t cb ∉ ts →
      runAnimation g later = some g1 →
      (∃ es, run g es = some g1) ∧ g1.timers = ts ++ [Timer.settle cb] := by
  intro later
  induction later with
  | nil =>
    intro g g1 ts hts _ h
    simp [runAnimation, hts] at h
  | cons tick later ih =>
    intro g g1 ts hts hnot h
    rw [runAnimation_pending g ts s t cb _ hts] at h
    simp only [animateChain] at h
    cases hanim : animate { g with timers := ts } s t cb tick.1 tick.2 with
    | none => simp [hanim] at h
    | some g2 =>
      simp only [hanim, Option.some_bind] at h
      have hstep : step g (Event.timeout (Timer.animate s t cb) tick.1 tick.2) = some g2 := by
        have hmem : Timer.animate s t cb ∈ g.timers := by rw [hts]; simp
        have herase : g.timers.erase (Timer.animate s t cb) = ts := by
          rw [hts]; exact erase_last ts _ hnot
        simp only [step]
        rw [if_pos hmem, herase]
        exact hanim
      by_cases hlt : tick.1 - s < duration
      · obtain ⟨n, hue, freq, hg2⟩ := animate_some_decoy _ g2 s t cb tick.1 tick.2 hlt hanim
        have hts2 : g2.timers = ts ++ [Timer.animate s t cb] := by rw [hg2]
        obtain ⟨⟨es, hes⟩, htm⟩ := ih g2 g1 ts hts2 hnot h
        refine ⟨⟨Event.timeout (Timer.animate s t cb) tick.1 tick.2 :: es, ?_⟩, htm⟩
        simp only [run, hstep]
        exact hes
      · have hg2 := animate_final { g with timers := ts } s t cb tick.1 tick.2 (not_lt.mp hlt)
        rw [hanim, Option.some.injEq] at hg2
        have hts2 : g2.timers = ts ++ [Timer.settle cb] := by rw [hg2]
        rw [runAnimation_settled g2 ts cb later hts2, Option.some.injEq] at h
        subst h
        refine ⟨⟨[Event.timeout (Timer.animate s t cb) tick.1 tick.2], ?_⟩, hts2⟩
        simp [run, hstep]

/-- A completed draw cycle that starts between cycles is a run of events: the
call of `drawNumber` followed by the firings of the timers of its animation. -/
theorem drawCycle_is_run (g g2 : BingoGame) (startTime now : ℤ) (rs : List Random)
    (later : List (ℤ × List Random)) (hidle : Idle g)
    (h : drawCycle g startTime now rs later = some g2) :
    ∃ es, run g (Event.drawNumber startTime now rs :: es) = some g2 := by
  unfold drawCycle at h
  cases hdraw : drawNumber g startTime now rs with
  | none => simp [hdraw] at h
  | some g1 =>
    simp only [hdraw, Option.some_bind] at h
    cases hanim : runAnimation g1 later with
    | none => simp [hanim] at h
    | some gA =>
      simp only [hanim, Option.some_bind] at h
      by_cases hlt : (g.drawnNumbers.card : ℤ) < g.maxNumber
      · obtain ⟨_, hdrawing, _, htimers⟩ := hidle
        have hd := hdraw
        unfold drawNumber at hd
        have h3 : ¬ ((g.drawnNumbers.card : ℤ) ≥ g.maxNumber) := not_le.mpr hlt
        simp only [hdrawing, h3, Bool.false_eq_true, if_false] at hd
        cases hres : resample g.maxNumber g.drawnNumbers rs with
        | none => simp [hres] at hd
        | some p =>
          obtain ⟨n, rest⟩ := p
          simp only [hres, startRouletteAnimation] at hd
          have hnotA : Timer.animate startTime n (some (Callback.commit n)) ∉ g.timers :=
            fun hm => by have := htimers _ hm; simp at this
          have hnotS : Timer.settle (some (Callback.commit n)) ∉ g.timers :=
            fun hm => by have := htimers _ hm; simp at this
          obtain ⟨tm, log, htm, hg1⟩ := animate_some _ g1 _ _ _ _ _ hd
          have hsettled : (∃ es, run g1 es = some gA) ∧
              gA.timers = g.timers ++ [Timer.settle (some (Callback.commit n))] := by
            rcases htm with rfl | rfl
            · exact runAnimation_events startTime n (some (Callback.commit n)) later g1 gA
                g.timers (by rw [hg1]; rfl) hnotA hanim
            · have hts1 : g1.timers = g.timers ++ [Timer.settle (some (Callback.commit n))] := by
                rw [hg1]; rfl
              rw [runAnimation_settled g1 g.timers _ later hts1, Option.some.injEq] at hanim
              subst hanim
              exact ⟨⟨[], rfl⟩, hts1⟩
          obtain ⟨⟨es, hes⟩, htsA⟩ := hsettled
          rw [fireSettle_settled gA g.timers _ htsA, Option.some.injEq] at h
          refine ⟨es ++ [Event.timeout (Timer.settle (some (Callback.commit n))) now []], ?_⟩
          simp only [run, step, hdraw]
          rw [run_append, hes, Option.some_bind]
          have hmem : Timer.settle (some (Callback.commit n)) ∈ gA.timers := by
            rw [htsA]; simp
          have herase : gA.timers.erase (Timer.settle (some (Callback.commit n))) = g.timers := by
            rw [htsA]; exact erase_last g.timers _ hnotS
          simp only [run, step]
          rw [if_pos hmem, herase]
          simp only [runTimer, h]
      · have hfull := drawCycle_full g startTime now rs later hidle hlt
        unfold drawCycle at hfull
        rw [hdraw, Option.some_bind, hanim, Option.some_bind, h] at hfull
        simp at hfull

theorem drawCycle_reachable (g g2 : BingoGame) (startTime now : ℤ) (rs : List Random)
    (later : List (ℤ × List Random)) (hreach : Reachable g) (hidle : Idle g)
    (h : drawCycle g startTime now rs later = some g2) : Reachable g2 := by
  obtain ⟨es0, h0⟩ := hreach
  obtain ⟨es, hes⟩ := drawCycle_is_run g g2 startTime now rs later hidle h
  exact ⟨es0 ++ Event.drawNumber startTime now rs :: es, by
    rw [run_append, h0]; exact hes⟩

/-- From a state in which a draw is admitted, a draw cycle completes whenever the
random values let the loop for the final number leave, the clock readings of
the ticks reach the duration and the ticks before that have random values that
let the decoy loop leave; the number committed is then the first undrawn image
in the stream. -/
theorem drawCycle_completes (g : BingoGame) (startTime now : ℤ)
    (pre : List Random) (r : Random) (rest : List Random)
    (later : List (ℤ × List Random)) (h1 : g.isDrawing = false)
    (h2 : (g.drawnNumbers.card : ℤ) < g.maxNumber)
    (hpre : ∀ x ∈ pre, pick g.maxNumber x ∈ g.drawnNumbers)
    (hr : pick g.maxNumber r ∉ g.drawnNumbers)
    (hreach : ∃ x ∈ (now, rest) :: later, duration ≤ x.1 - startTime)
    (hrand : ∀ y ∈ (now, rest) :: later, y.1 - startTime < duration →
      DecoyReady g.maxNumber g.drawnNumbers y.2) :
    ∃ g2, drawCycle g startTime now (pre ++ r :: rest) later = some g2 ∧
      g2.drawnNumbers = insert (pick g.maxNumber r) g.drawnNumbers ∧
      g2.currentNumber = some (pick g.maxNumber r) := by
  rw [drawCycle_allowed g startTime now _ later h1 h2]
  have hres : resample g.maxNumber g.drawnNumbers (pre ++ r :: rest) =
      some (pick g.maxNumber r, rest) := by
    rw [resample_skip _ _ pre _ hpre]
    simp [resample, hr]
  simp only [hres]
  obtain ⟨x, hx, hge⟩ := hreach
  obtain ⟨i, hi⟩ := List.getElem?_of_mem hx
  obtain ⟨decoys, hchain, _, _⟩ :=
    animateChain_total startTime (pick g.maxNumber r)
      (some (Callback.commit (pick g.maxNumber r))) ((now, rest) :: later)
      { g with
        log := g.log ++ [Effect.cue Cue.buttonClick, Effect.cue Cue.drumRoll,
          Effect.addClass DisplayClass.spinning]
        isDrawing := true
        drawButtonDisabled := true } i x hi hge hrand
  rw [hchain, Option.some_bind, fireSettle_settled _ g.timers _ rfl]
  obtain ⟨_, _, _, hcur, hdrawn, _⟩ := settle_commit
    { g with
      log := g.log ++ [Effect.cue Cue.buttonClick, Effect.cue Cue.drumRoll,
        Effect.addClass DisplayClass.spinning] ++ decoys ++
          finale (pick g.maxNumber r) (some (Callback.commit (pick g.maxNumber r)))
      isDrawing := true
      drawButtonDisabled := true } (pick g.maxNumber r)
  exact ⟨_, rfl, hdrawn, hcur⟩

end Bingo
